import Mathlib

/-!
# Verification of the bitos kernel core

A shallow embedding, in Lean 4, of the parts of the `bitos` RISC-V kernel
(crates `os` and `fat32`) that the verified properties talk about:

* `waitpid` zombie reaping (`os/src/syscall/process.rs`),
* address-space fork copy (`os/src/mm/memory_set.rs`, `frame_allocator.rs`),
* the stride scheduler (`os/src/task/manager.rs`, `processor.rs`, `task.rs`),
* the block-cache manager (`fat32/src/block_cache.rs`),
* FAT cluster allocation (`fat32/src/fat.rs`),
* `open_file`/`sys_openat` (`os/src/fs/inode.rs`, `os/src/syscall/fs.rs`),
* the pipe ring buffer (`os/src/fs/pipe.rs`),
* `sys_mmap` (`os/src/syscall/process.rs`).

Machine integers are modelled as `Nat`/`Int` with explicit wrapping where the
Rust code can overflow; Rust panics (`unwrap`, failed `assert!`) are modelled
as explicit `Except`/`Option` failure values; `Arc` reference counts appear as
plain `Nat` fields where an operation inspects them.
-/

set_option maxHeartbeats 1600000

namespace BitOS

/-! ## Task status (os/src/task/task.rs, `TaskStatus`) -/

/-- Execution status of a task control block. -/
inductive TaskStatus where
  | Ready
  | Running
  | Zombie
  deriving DecidableEq, Repr

/-! ## waitpid (os/src/syscall/process.rs, `waitpid`)

A child task, seen through the fields `waitpid` inspects: its pid, its
status (`is_zombie`) and its exit code. -/

structure ChildTCB where
  pid : Nat
  status : TaskStatus
  exit_code : Int
  deriving DecidableEq, Repr

/-- `pid == -1 || pid as usize == p.getpid()`: the Rust cast `pid as usize`
wraps modulo `2^64`. -/
def pidMatches (pid : Int) (p : ChildTCB) : Bool :=
  pid == -1 || (pid.emod (2 ^ 64)).toNat == p.pid

/-- `inner.children.iter().enumerate().find(|(_, p)| p.is_zombie() && (pid == -1 || pid as usize == p.getpid()))` -/
def findZombie (pid : Int) : List ChildTCB → Option (Nat × ChildTCB)
  | [] => none
  | p :: rest =>
    if p.status = TaskStatus.Zombie ∧ pidMatches pid p then some (0, p)
    else (findZombie pid rest).map (fun ic => (ic.1 + 1, ic.2))

/-- Two's-complement wrap of an `Int` into the `i32` range, used to model the
Rust expression `exit_code << 8` on an `i32`. -/
def wrap32 (x : Int) : Int :=
  (x + 2 ^ 31).emod (2 ^ 32) - 2 ^ 31

/-- Outcome of one `waitpid` call: the returned `isize`, the surviving
`children` vector, and the value stored through the user pointer (if any). -/
structure WaitResult where
  ret : Int
  children : List ChildTCB
  written : Option Int
  deriving DecidableEq, Repr

/-- `waitpid(pid, exit_code_ptr)` from os/src/syscall/process.rs: return `-1`
when no child matches; otherwise reap the first matching zombie (remove it,
write `exit_code << 8` through a non-null pointer, return its pid), or return
`-2` when every matching child is still alive. `ptrNull` models
`exit_code_ptr == null_mut()`. -/
def waitpid (children : List ChildTCB) (pid : Int) (ptrNull : Bool) : WaitResult :=
  if ¬ children.any (fun p => pidMatches pid p) then
    ⟨-1, children, none⟩
  else
    match findZombie pid children with
    | some (idx, child) =>
        ⟨(child.pid : Int), children.eraseIdx idx,
          if ptrNull then none else some (wrap32 (child.exit_code * 2 ^ 8))⟩
    | none => ⟨-2, children, none⟩

theorem findZombie_none_iff (pid : Int) (l : List ChildTCB) :
    findZombie pid l = none ↔
      ∀ p ∈ l, ¬ (p.status = TaskStatus.Zombie ∧ pidMatches pid p) := by
  induction l with
  | nil => simp [findZombie]
  | cons p rest ih =>
    by_cases h : p.status = TaskStatus.Zombie ∧ pidMatches pid p
    · simp [findZombie, h]
    · simp only [findZombie, if_neg h, Option.map_eq_none', ih, List.mem_cons]
      constructor
      · intro hall q hq
        rcases hq with rfl | hq
        · exact h
        · exact hall q hq
      · intro hall q hq
        exact hall q (Or.inr hq)

theorem findZombie_some (pid : Int) (l : List ChildTCB) (idx : Nat) (c : ChildTCB)
    (h : findZombie pid l = some (idx, c)) :
    idx < l.length ∧ l.get? idx = some c ∧
      c.status = TaskStatus.Zombie ∧ pidMatches pid c = true := by
  induction l generalizing idx with
  | nil => simp [findZombie] at h
  | cons p rest ih =>
    by_cases hp : p.status = TaskStatus.Zombie ∧ pidMatches pid p
    · simp only [findZombie, if_pos hp] at h
      cases h
      exact ⟨Nat.succ_pos _, rfl, hp.1, hp.2⟩
    · simp only [findZombie, if_neg hp, Option.map_eq_some'] at h
      obtain ⟨⟨j, c'⟩, hj, heq⟩ := h
      obtain ⟨hidx, hc⟩ := Prod.mk.injEq .. ▸ heq
      subst hc
      obtain ⟨hlt, hget, hz, hm⟩ := ih j hj
      subst hidx
      exact ⟨Nat.succ_lt_succ hlt, hget, hz, hm⟩

theorem findZombie_exists (pid : Int) (l : List ChildTCB)
    (h : ∃ p ∈ l, p.status = TaskStatus.Zombie ∧ pidMatches pid p = true) :
    ∃ idx c, findZombie pid l = some (idx, c) := by
  rcases hf : findZombie pid l with _ | ic
  · obtain ⟨p, hp, hz⟩ := h
    exact absurd hz ((findZombie_none_iff pid l).mp hf p hp)
  · exact ⟨ic.1, ic.2, rfl⟩

/-- **C1.** `waitpid(pid)`: if no child matches `pid` the call returns `-1` and
changes nothing; if some child matches but no matching child is a zombie it
returns `-2` and changes nothing; otherwise it removes the first matching
zombie from `children`, writes its `exit_code << 8` through the user pointer
when that pointer is non-null (and writes nothing when it is null), and
returns that child's pid. -/
theorem waitpid_correct (children : List ChildTCB) (pid : Int) (ptrNull : Bool) :
    ((∀ p ∈ children, pidMatches pid p = false) →
        waitpid children pid ptrNull = ⟨-1, children, none⟩)
    ∧ ((∃ p ∈ children, pidMatches pid p = true) →
        (∀ p ∈ children, pidMatches pid p = true → p.status ≠ TaskStatus.Zombie) →
        waitpid children pid ptrNull = ⟨-2, children, none⟩)
    ∧ ((∃ p ∈ children, pidMatches pid p = true ∧ p.status = TaskStatus.Zombie) →
        ∃ idx child,
          idx < children.length ∧
          children.get? idx = some child ∧
          child.status = TaskStatus.Zombie ∧
          pidMatches pid child = true ∧
          waitpid children pid ptrNull =
            ⟨(child.pid : Int), children.eraseIdx idx,
              if ptrNull then none else some (wrap32 (child.exit_code * 2 ^ 8))⟩) := by
  refine ⟨?_, ?_, ?_⟩
  · intro hnone
    have : children.any (fun p => pidMatches pid p) = false := by
      simp only [List.any_eq_false]
      intro p hp
      simp [hnone p hp]
    simp [waitpid, this]
  · intro hsome hnz
    have hany : children.any (fun p => pidMatches pid p) = true := by
      obtain ⟨p, hp, hm⟩ := hsome
      exact List.any_eq_true.mpr ⟨p, hp, hm⟩
    have hfz : findZombie pid children = none := by
      rw [findZombie_none_iff]
      intro p hp ⟨hz, hm⟩
      exact hnz p hp hm hz
    simp [waitpid, hany, hfz]
  · intro hzomb
    obtain ⟨idx, c, hf⟩ := findZombie_exists pid children (by
      obtain ⟨p, hp, hm, hz⟩ := hzomb
      exact ⟨p, hp, hz, hm⟩)
    obtain ⟨hlt, hget, hz, hm⟩ := findZombie_some pid children idx c hf
    have hany : children.any (fun p => pidMatches pid p) = true := by
      obtain ⟨p, hp, hm', _⟩ := hzomb
      exact List.any_eq_true.mpr ⟨p, hp, hm'⟩
    refine ⟨idx, c, hlt, hget, hz, hm, ?_⟩
    simp [waitpid, hany, hf]

/-- Witness for C1: a single zombie child with pid 5 and exit code 7 is reaped
by `wait(-1)`; the value `7 << 8` is written through the non-null pointer. -/
theorem waitpid_correct_witness :
    (∃ p ∈ [ChildTCB.mk 5 TaskStatus.Zombie 7],
        pidMatches (-1) p = true ∧ p.status = TaskStatus.Zombie) ∧
    waitpid [ChildTCB.mk 5 TaskStatus.Zombie 7] (-1) false = ⟨5, [], some 1792⟩ := by
  have h := (waitpid_correct [ChildTCB.mk 5 TaskStatus.Zombie 7] (-1) false).2.2
    ⟨ChildTCB.mk 5 TaskStatus.Zombie 7, by decide, by decide, by decide⟩
  obtain ⟨idx, child, hlt, hget, _, _, heq⟩ := h
  refine ⟨⟨ChildTCB.mk 5 TaskStatus.Zombie 7, by decide, by decide, by decide⟩, ?_⟩
  have hidx : idx = 0 := Nat.lt_one_iff.mp (by simpa using hlt)
  subst hidx
  have hchild : child = ChildTCB.mk 5 TaskStatus.Zombie 7 := by
    simpa using hget.symm
  subst hchild
  simpa [wrap32] using heq

/-! ## Stride scheduler (os/src/task/manager.rs `TaskManager::fetch`,
os/src/task/processor.rs `run_tasks`, os/src/task/task.rs `update_stri`) -/

/-- A task control block, seen through the fields the scheduler inspects. -/
structure SchedTask where
  pid : Nat
  stride : Int
  pri : Int
  status : TaskStatus
  deriving DecidableEq, Repr

/-- The linear scan in `TaskManager::fetch`:
`for (i, task) in self.ready_queue.iter_mut().enumerate() { if inner.stride <= stride { id = i; stride = inner.stride; } }`.
`i` is the index of the head of `q` in the full queue; the accumulator carries
the running `(id, stride)`. -/
def scanMin : List SchedTask → Nat → Nat × Int → Nat × Int
  | [], _, acc => acc
  | t :: rest, i, acc =>
      scanMin rest (i + 1) (if t.stride ≤ acc.2 then (i, t.stride) else acc)

/-- `TaskManager::fetch`: `self.ready_queue.get(0).unwrap()` panics on an empty
queue (`.error`); otherwise the scan picks the index of minimal stride and
`self.ready_queue.remove(id)` extracts it. -/
def fetchTask (q : List SchedTask) : Except String (Option SchedTask × List SchedTask) :=
  match q with
  | [] => Except.error "called Option::unwrap on a None value"
  | t0 :: _ =>
      let id := (scanMin q 0 (0, t0.stride)).1
      Except.ok (q.get? id, q.eraseIdx id)

/-- `TaskControlBlock::update_stri`: `inner.stride += BIGSTRIDE/inner.pri;`
(`isize` division truncates toward zero, `Int.tdiv`). The constant `BIGSTRIDE` lives in
`os/src/config.rs`, which is not part of the sources; the model takes it as a
parameter. -/
def update_stri (bigstride : Int) (t : SchedTask) : SchedTask :=
  { t with stride := t.stride + Int.tdiv bigstride t.pri }

/-- One iteration of the dispatch loop in `run_tasks`: fetch a task, set it
`Running`, call `update_stri`, and hand it to `__switch`; `.ok none` is the
`warn!("no tasks available in run_tasks")` branch. -/
def runTasksStep (bigstride : Int) (q : List SchedTask) :
    Except String (Option (SchedTask × List SchedTask)) :=
  match fetchTask q with
  | Except.error e => Except.error e
  | Except.ok (none, _) => Except.ok none
  | Except.ok (some t, q') =>
      Except.ok (some (update_stri bigstride { t with status := TaskStatus.Running }, q'))

theorem scanMin_le (q : List SchedTask) (i id : Nat) (stride : Int) :
    (scanMin q i (id, stride)).2 ≤ stride ∧
      ∀ t ∈ q, (scanMin q i (id, stride)).2 ≤ t.stride := by
  induction q generalizing i id stride with
  | nil => simp [scanMin]
  | cons t rest ih =>
    by_cases h : t.stride ≤ stride
    · have := ih (i + 1) i t.stride
      refine ⟨le_trans ?_ h, ?_⟩
      · simpa [scanMin, h] using this.1
      · intro u hu
        rcases List.mem_cons.mp hu with rfl | hu
        · simpa [scanMin, h] using this.1
        · simpa [scanMin, h] using this.2 u hu
    · have := ih (i + 1) id stride
      refine ⟨by simpa [scanMin, h] using this.1, ?_⟩
      intro u hu
      rcases List.mem_cons.mp hu with rfl | hu
      · exact le_trans (by simpa [scanMin, h] using this.1) (le_of_not_le h)
      · simpa [scanMin, h] using this.2 u hu

theorem scanMin_mem (q : List SchedTask) (i id : Nat) (stride : Int) :
    ((scanMin q i (id, stride)).1 = id ∧ (scanMin q i (id, stride)).2 = stride) ∨
      (∃ j t, j < q.length ∧ q.get? j = some t ∧
        (scanMin q i (id, stride)).1 = i + j ∧
        (scanMin q i (id, stride)).2 = t.stride) := by
  induction q generalizing i id stride with
  | nil => simp [scanMin]
  | cons t rest ih =>
    by_cases h : t.stride ≤ stride
    · rcases ih (i + 1) i t.stride with ⟨h1, h2⟩ | ⟨j, u, hj, hget, h1, h2⟩
      · refine Or.inr ⟨0, t, Nat.succ_pos _, rfl, ?_, ?_⟩
        · simpa [scanMin, h] using h1
        · simpa [scanMin, h] using h2
      · refine Or.inr ⟨j + 1, u, Nat.succ_lt_succ hj, hget, ?_, ?_⟩
        · simp only [scanMin, if_pos h]
          omega
        · simpa [scanMin, h] using h2
    · rcases ih (i + 1) id stride with ⟨h1, h2⟩ | ⟨j, u, hj, hget, h1, h2⟩
      · exact Or.inl ⟨by simpa [scanMin, h] using h1, by simpa [scanMin, h] using h2⟩
      · refine Or.inr ⟨j + 1, u, Nat.succ_lt_succ hj, hget, ?_, by simpa [scanMin, h] using h2⟩
        simp only [scanMin, if_neg h]
        omega

/-- Core behaviour of `TaskManager::fetch` on a non-empty queue: it removes
and returns an entry whose stride is minimal. -/
theorem fetchTask_cons (t0 : SchedTask) (rest : List SchedTask) :
    ∃ idx t, idx < (t0 :: rest).length ∧ (t0 :: rest).get? idx = some t ∧
      (∀ u ∈ t0 :: rest, t.stride ≤ u.stride) ∧
      fetchTask (t0 :: rest) = Except.ok (some t, (t0 :: rest).eraseIdx idx) := by
  have hstep : scanMin (t0 :: rest) 0 (0, t0.stride) = scanMin rest 1 (0, t0.stride) := by
    simp [scanMin]
  have hle := scanMin_le rest 1 0 t0.stride
  rcases scanMin_mem rest 1 0 t0.stride with ⟨h1, h2⟩ | ⟨j, u, hj, hget, h1, h2⟩
  · refine ⟨0, t0, Nat.succ_pos _, rfl, ?_, ?_⟩
    · intro v hv
      rcases List.mem_cons.mp hv with rfl | hv
      · exact le_refl _
      · exact h2 ▸ hle.2 v hv
    · simp only [fetchTask, hstep, h1]
      rfl
  · refine ⟨1 + j, u, by simp; omega, ?_, ?_, ?_⟩
    · rw [Nat.add_comm 1 j]
      simpa using hget
    · intro v hv
      rcases List.mem_cons.mp hv with rfl | hv
      · exact h2 ▸ hle.1
      · exact h2 ▸ hle.2 v hv
    · simp only [fetchTask, hstep, h1]
      rw [Nat.add_comm 1 j]
      simp only [List.get?_cons_succ, hget]

/-- **C3.** On a non-empty ready queue, a dispatch removes and returns a queued
task whose stride is less than or equal to the stride of every task in the
queue, sets its status to `Running`, and adds `BIGSTRIDE / pri` to its stride
before switching to it. -/
theorem dispatch_picks_min_stride (bigstride : Int) (q : List SchedTask) (h : q ≠ []) :
    ∃ idx t, idx < q.length ∧ q.get? idx = some t ∧
      (∀ u ∈ q, t.stride ≤ u.stride) ∧
      runTasksStep bigstride q =
        Except.ok (some
          ({ t with status := TaskStatus.Running,
                    stride := t.stride + Int.tdiv bigstride t.pri },
            q.eraseIdx idx)) := by
  match q, h with
  | t0 :: rest, _ =>
    obtain ⟨idx, t, hlt, hget, hmin, hfetch⟩ := fetchTask_cons t0 rest
    refine ⟨idx, t, hlt, hget, hmin, ?_⟩
    simp only [runTasksStep, hfetch]
    rfl

/-- Witness for C3: with `BIGSTRIDE = 65536`, the queue
`[pid 1 stride 10, pid 2 stride 4, pid 3 stride 7]` dispatches the task with
stride 4 (priority 16), which runs with stride `4 + 65536/16`. -/
theorem dispatch_picks_min_stride_witness :
    ([SchedTask.mk 1 10 16 TaskStatus.Ready, SchedTask.mk 2 4 16 TaskStatus.Ready,
        SchedTask.mk 3 7 16 TaskStatus.Ready] ≠ ([] : List SchedTask)) ∧
    (∃ idx t,
      idx < [SchedTask.mk 1 10 16 TaskStatus.Ready, SchedTask.mk 2 4 16 TaskStatus.Ready,
          SchedTask.mk 3 7 16 TaskStatus.Ready].length ∧
      [SchedTask.mk 1 10 16 TaskStatus.Ready, SchedTask.mk 2 4 16 TaskStatus.Ready,
          SchedTask.mk 3 7 16 TaskStatus.Ready].get? idx = some t ∧
      (∀ u ∈ [SchedTask.mk 1 10 16 TaskStatus.Ready, SchedTask.mk 2 4 16 TaskStatus.Ready,
          SchedTask.mk 3 7 16 TaskStatus.Ready], t.stride ≤ u.stride) ∧
      runTasksStep 65536
          [SchedTask.mk 1 10 16 TaskStatus.Ready, SchedTask.mk 2 4 16 TaskStatus.Ready,
            SchedTask.mk 3 7 16 TaskStatus.Ready] =
        Except.ok (some
          ({ t with status := TaskStatus.Running,
                    stride := t.stride + Int.tdiv 65536 t.pri },
            [SchedTask.mk 1 10 16 TaskStatus.Ready, SchedTask.mk 2 4 16 TaskStatus.Ready,
              SchedTask.mk 3 7 16 TaskStatus.Ready].eraseIdx idx))) :=
  ⟨by decide,
    dispatch_picks_min_stride 65536
      [SchedTask.mk 1 10 16 TaskStatus.Ready, SchedTask.mk 2 4 16 TaskStatus.Ready,
        SchedTask.mk 3 7 16 TaskStatus.Ready] (by decide)⟩

/-- **C9.** `TaskManager::fetch` is only total on non-empty queues: on an empty
queue it panics (`self.ready_queue.get(0).unwrap()` on `None`) and it never
returns `Ok` carrying `None`, so the `warn!("no tasks available")` branch of
`run_tasks` is unreachable; on a non-empty queue it returns `Some` task. -/
theorem fetchTask_totality :
    (fetchTask ([] : List SchedTask) =
        Except.error "called Option::unwrap on a None value")
    ∧ (∀ q : List SchedTask,
        fetchTask q = Except.error "called Option::unwrap on a None value" → q = [])
    ∧ (∀ (q : List SchedTask) (r : Option SchedTask) (q' : List SchedTask),
        fetchTask q = Except.ok (r, q') → ∃ t, r = some t)
    ∧ (∀ (bigstride : Int) (q : List SchedTask),
        runTasksStep bigstride q ≠ Except.ok none) := by
  have hok : ∀ (q : List SchedTask) (r : Option SchedTask) (q' : List SchedTask),
      fetchTask q = Except.ok (r, q') → ∃ t, r = some t := by
    intro q r q' hq
    match q with
    | [] => simp [fetchTask] at hq
    | t0 :: rest =>
      obtain ⟨idx, t, _, _, _, hfetch⟩ := fetchTask_cons t0 rest
      rw [hfetch] at hq
      cases hq
      exact ⟨t, rfl⟩
  refine ⟨rfl, ?_, hok, ?_⟩
  · intro q hq
    match q with
    | [] => rfl
    | t0 :: rest =>
      obtain ⟨idx, t, _, _, _, hfetch⟩ := fetchTask_cons t0 rest
      rw [hfetch] at hq
      cases hq
  · intro bigstride q hq
    unfold runTasksStep at hq
    rcases hf : fetchTask q with e | ⟨r, q'⟩
    · rw [hf] at hq
      cases hq
    · obtain ⟨t, rfl⟩ := hok q r q' hf
      rw [hf] at hq
      cases hq

/-- Witness for C9: on the singleton queue with one ready task, `fetch`
returns `Some`; and on `BIGSTRIDE = 100`, the empty queue never reaches the
"no tasks available" branch with an `Ok` outcome. -/
theorem fetchTask_totality_witness :
    (∃ t, some (SchedTask.mk 1 5 16 TaskStatus.Ready) = some t) ∧
    runTasksStep 100 ([] : List SchedTask) ≠ Except.ok none :=
  ⟨fetchTask_totality.2.2.1 [SchedTask.mk 1 5 16 TaskStatus.Ready]
      (some (SchedTask.mk 1 5 16 TaskStatus.Ready)) [] (by rfl),
    fetchTask_totality.2.2.2 100 []⟩

/-! ## Block cache manager (fat32/src/block_cache.rs, `BlockCacheManager`) -/

/-- One queue slot of a `BlockCacheManager`: the `block_id` key stored in the
pair, and the `Arc::strong_count` of the shared `BlockCache` handle. The
512-byte buffer plays no role in the queue discipline. -/
structure CacheSlot where
  block_id : Nat
  strong_count : Nat
  deriving DecidableEq, Repr

/-- `const BLOCK_CACHE_SIZE: usize = 10;` -/
def BLOCK_CACHE_SIZE : Nat := 10

/-- `BlockCacheManager::read_block_cache`: a pure lookup; the queue is not
mutated, so the result pairs the found slot with the unchanged queue. -/
def read_block_cache (q : List CacheSlot) (id : Nat) :
    Option CacheSlot × List CacheSlot :=
  (q.find? (fun s => s.block_id == id), q)

/-- `BlockCacheManager::get_block_cache`: on hit, return the shared handle and
leave the queue unchanged; on miss, when the queue is full, evict the first
slot whose `strong_count` is 1 (`none` models `panic!("Run out of
BlockCache!")` when no slot qualifies), then push a fresh slot for `id` at the
back. -/
def get_block_cache (q : List CacheSlot) (id : Nat) : Option (List CacheSlot) :=
  if q.any (fun s => s.block_id == id) then some q
  else
    (if q.length = BLOCK_CACHE_SIZE then
        match q.findIdx? (fun s => s.strong_count == 1) with
        | some i => some (q.eraseIdx i)
        | none => none
      else some q).map (fun q1 => q1 ++ [⟨id, 2⟩])

/-- `BlockCacheManager::drop_all`: `self.queue.clear();`. -/
def drop_all (_q : List CacheSlot) : List CacheSlot := []

/-- **C4.** Each block-cache manager keeps at most one live entry per
`block_id`: if the queue holds pairwise distinct `block_id`s, then the queue
left by `read_block_cache` (which does not mutate), any queue produced by
`get_block_cache` (insertion with eviction), and the queue left by `drop_all`
all hold pairwise distinct `block_id`s as well. -/
theorem cache_at_most_one_entry_per_block (q : List CacheSlot) (id : Nat)
    (h : (q.map CacheSlot.block_id).Nodup) :
    ((read_block_cache q id).2.map CacheSlot.block_id).Nodup
    ∧ (∀ q', get_block_cache q id = some q' →
        (q'.map CacheSlot.block_id).Nodup)
    ∧ ((drop_all q).map CacheSlot.block_id).Nodup := by
  refine ⟨h, ?_, by simp [drop_all]⟩
  intro q' hq
  unfold get_block_cache at hq
  by_cases hhit : q.any (fun s => s.block_id == id) = true
  · rw [if_pos hhit] at hq
    cases hq
    exact h
  · rw [if_neg hhit] at hq
    have hnotin : id ∉ q.map CacheSlot.block_id := by
      simp only [List.any_eq_true, beq_iff_eq] at hhit
      simp only [List.mem_map]
      rintro ⟨s, hs, rfl⟩
      exact hhit ⟨s, hs, rfl⟩
    have hmain : ∀ q1 : List CacheSlot, q1.Sublist q →
        q' = q1 ++ [⟨id, 2⟩] → (q'.map CacheSlot.block_id).Nodup := by
      intro q1 hsub hq1
      subst hq1
      have hsub' : (q1.map CacheSlot.block_id).Sublist (q.map CacheSlot.block_id) :=
        hsub.map _
      have h1 : (q1.map CacheSlot.block_id).Nodup := h.sublist hsub'
      have h2 : id ∉ q1.map CacheSlot.block_id := fun hm => hnotin (hsub'.mem hm)
      rw [List.map_append]
      exact List.nodup_append.mpr ⟨h1, List.nodup_singleton id, by
        intro a ha hb
        simp only [List.map_cons, List.map_nil, List.mem_singleton] at hb
        exact h2 (hb ▸ ha)⟩
    by_cases hfull : q.length = BLOCK_CACHE_SIZE
    · rw [if_pos hfull] at hq
      rcases hidx : q.findIdx? (fun s => s.strong_count == 1) with _ | i
      · rw [hidx] at hq
        cases hq
      · rw [hidx] at hq
        simp only [Option.map_some'] at hq
        exact hmain (q.eraseIdx i) (List.eraseIdx_sublist q i) (Option.some.inj hq).symm
    · rw [if_neg hfull] at hq
      simp only [Option.map_some'] at hq
      exact hmain q (List.Sublist.refl q) (Option.some.inj hq).symm

/-- Witness for C4: a two-slot queue with distinct block ids keeps distinct
ids across a miss insertion of block 5, across a lookup, and across
`drop_all`. -/
theorem cache_at_most_one_entry_per_block_witness :
    (([CacheSlot.mk 1 1, CacheSlot.mk 2 3].map CacheSlot.block_id).Nodup) ∧
    (((read_block_cache [CacheSlot.mk 1 1, CacheSlot.mk 2 3] 5).2.map
        CacheSlot.block_id).Nodup
      ∧ (∀ q', get_block_cache [CacheSlot.mk 1 1, CacheSlot.mk 2 3] 5 = some q' →
          (q'.map CacheSlot.block_id).Nodup)
      ∧ ((drop_all [CacheSlot.mk 1 1, CacheSlot.mk 2 3]).map
          CacheSlot.block_id).Nodup) :=
  ⟨by decide,
    cache_at_most_one_entry_per_block [CacheSlot.mk 1 1, CacheSlot.mk 2 3] 5 (by decide)⟩

/-! ## Pipe ring buffer (os/src/fs/pipe.rs) -/

/-- `RingBufferStatus` from os/src/fs/pipe.rs. -/
inductive RingBufferStatus where
  | FULL
  | EMPTY
  | NORMAL
  deriving DecidableEq, Repr

/-- `const RING_BUFFER_SIZE: usize = 32;` -/
def RING_BUFFER_SIZE : Nat := 32

/-- `PipeRingBuffer`: the 32-byte array, head/tail cursors, status, and the
weak reference to the write end. `write_end = none` models a buffer whose
write end was never set (`set_write_end` not called); `some alive` models a
stored weak reference whose `upgrade()` succeeds iff `alive`. -/
structure PipeRingBuffer where
  arr : List Nat
  head : Nat
  tail : Nat
  status : RingBufferStatus
  write_end : Option Bool
  deriving DecidableEq, Repr

/-- `PipeRingBuffer::available_read`. -/
def available_read (rb : PipeRingBuffer) : Nat :=
  if rb.status = RingBufferStatus.EMPTY then 0
  else if rb.tail > rb.head then rb.tail - rb.head
  else rb.tail + RING_BUFFER_SIZE - rb.head

/-- `PipeRingBuffer::all_write_ends_closed`:
`self.write_end.as_ref().unwrap().upgrade().is_none()`; `none` models the
panic of `unwrap()` on an unset write end. -/
def all_write_ends_closed (rb : PipeRingBuffer) : Option Bool :=
  rb.write_end.map (fun alive => !alive)

/-- `PipeRingBuffer::read_byte`: pop `arr[head]`, advance `head` modulo the
ring size, and mark the buffer `EMPTY` when the cursors meet (the interim
`NORMAL` assignment is overwritten in that case). -/
def read_byte (rb : PipeRingBuffer) : Nat × PipeRingBuffer :=
  let c := rb.arr.getD rb.head 0
  let head := (rb.head + 1) % RING_BUFFER_SIZE
  ⟨c, { rb with
          head := head,
          status := if head = rb.tail then RingBufferStatus.EMPTY
                    else RingBufferStatus.NORMAL }⟩

/-- Inner `for _ in 0..loop_read` loop of `Pipe::read`: transfer up to the
remaining user-buffer capacity (`want - read_size` slots); the `Bool` is true
when `buf_iter.next()` ran out, which makes `read` return immediately. -/
def pipeReadInner : Nat → PipeRingBuffer → Nat → Nat → List Nat →
    PipeRingBuffer × Nat × List Nat × Bool
  | 0, rb, _, n, acc => (rb, n, acc, false)
  | k + 1, rb, want, n, acc =>
      if n < want then
        let cb := read_byte rb
        pipeReadInner k cb.2 want (n + 1) (acc ++ [cb.1])
      else (rb, n, acc, true)

/-- Outcome of `Pipe::read`: the returned byte count together with the bytes
moved into the user buffer and the final ring state; `panic` is the `unwrap`
in `all_write_ends_closed`; `outOfFuel` marks an unfinished loop (the reader
kept suspending). -/
inductive PipeReadResult where
  | ret (read_size : Nat) (bytes : List Nat) (rb : PipeRingBuffer)
  | panic
  | outOfFuel
  deriving DecidableEq, Repr

/-- `Pipe::read`, with `fuel` bounding the number of outer-loop iterations.
When the buffer is empty and all write ends are closed the call returns the
bytes read so far; when it is empty with a live write end the task suspends
and retries (once all write ends are dropped no task can refill the buffer,
so the ring state is carried over unchanged across the suspension). -/
def pipeRead : Nat → PipeRingBuffer → Nat → Nat → List Nat → PipeReadResult
  | 0, _, _, _, _ => PipeReadResult.outOfFuel
  | fuel + 1, rb, want, n, acc =>
      if available_read rb = 0 then
        match all_write_ends_closed rb with
        | none => PipeReadResult.panic
        | some true => PipeReadResult.ret n acc rb
        | some false => pipeRead fuel rb want n acc
      else
        let r := pipeReadInner (available_read rb) rb want n acc
        if r.2.2.2 then PipeReadResult.ret r.2.1 r.2.2.1 r.1
        else pipeRead fuel r.1 want r.2.1 r.2.2.1

/-- **C7.** A pipe `read` invoked when the ring buffer is empty and the stored
weak reference to the write end no longer upgrades returns immediately with 0
bytes transferred (EOF) — it does not suspend, for any remaining fuel and any
requested length. -/
theorem pipe_read_eof (fuel want : Nat) (rb : PipeRingBuffer)
    (hempty : available_read rb = 0)
    (hclosed : rb.write_end = some false) :
    pipeRead (fuel + 1) rb want 0 [] = PipeReadResult.ret 0 [] rb := by
  simp [pipeRead, hempty, all_write_ends_closed, hclosed]

/-- Witness for C7: an empty ring whose write end has been dropped returns
EOF at once. -/
theorem pipe_read_eof_witness :
    available_read
        (PipeRingBuffer.mk (List.replicate 32 0) 0 0 RingBufferStatus.EMPTY
          (some false)) = 0 ∧
    (PipeRingBuffer.mk (List.replicate 32 0) 0 0 RingBufferStatus.EMPTY
        (some false)).write_end = some false ∧
    pipeRead 1
        (PipeRingBuffer.mk (List.replicate 32 0) 0 0 RingBufferStatus.EMPTY
          (some false)) 5 0 [] =
      PipeReadResult.ret 0 []
        (PipeRingBuffer.mk (List.replicate 32 0) 0 0 RingBufferStatus.EMPTY
          (some false)) :=
  ⟨by decide, by decide,
    pipe_read_eof 0 5
      (PipeRingBuffer.mk (List.replicate 32 0) 0 0 RingBufferStatus.EMPTY
        (some false)) (by decide) (by decide)⟩

/-! ## FAT cluster allocation (fat32/src/fat.rs, `FAT32Manager::alloc_cluster`)

The `FAT` table type and the FSInfo helpers are declared in
`fat32/src/layout.rs`, which is absent from the sources (only `mod layout;`
remains); their operations are modelled from the spec. `alloc_cluster` itself
is translated from fat32/src/fat.rs. -/

/-- `pub const FREE_CLUSTER: u32 = 0;` — a zero FAT entry marks a free cluster. -/
def FREE_CLUSTER : Nat := 0

/-- The end-of-chain mark written by `set_end`: `0x0FFFFFFF`. -/
def END_CLUSTER : Nat := 0x0FFFFFFF

/-- State threaded through `alloc_cluster`: the FAT entry table (the spec's
`set_next(c, next)` writes both on-disk FAT copies, so one logical table keeps
them equal), the FSInfo `free_count` and `first_free_hint`, and the list of
clusters whose sectors `clear_cluster` has zeroed. -/
structure FatFs where
  nEntries : Nat
  fat : Nat → Nat
  free_count : Nat
  hint : Nat
  cleared : List Nat

/-- Modelled from the spec: the linear scan inside `next_free_cluster`
(`FAT::next_free_cluster`, fat32/src/layout.rs, absent from the sources) —
probe successive positions modulo `nEntries` for an entry equal to 0, with at
most `nEntries` probes, "returns 0 if none". -/
def scanFree (fat : Nat → Nat) (nEntries pos : Nat) : Nat → Nat
  | 0 => 0
  | fuel + 1 =>
      if fat pos = FREE_CLUSTER then pos
      else scanFree fat nEntries ((pos + 1) % nEntries) fuel

/-- Modelled from the spec: "`next_free_cluster(hint)`: linear scan from
`hint+1` modulo `n_entries` for an entry equal to 0; returns 0 if none." -/
def next_free_cluster (fat : Nat → Nat) (nEntries hint : Nat) : Nat :=
  scanFree fat nEntries ((hint + 1) % nEntries) nEntries

/-- Modelled from the spec: "`set_next_cluster(c, next)`: write the same entry
into both FAT copies" — one pointwise update of the logical table. -/
def set_next_cluster (fat : Nat → Nat) (c next : Nat) : Nat → Nat :=
  fun x => if x = c then next else fat x

/-- Modelled from the spec: "`set_end(c)`: `set_next(c, 0x0FFFFFFF)`". -/
def set_end (fat : Nat → Nat) (c : Nat) : Nat → Nat :=
  set_next_cluster fat c END_CLUSTER

/-- `FAT32Manager::clear_cluster`: zeroes every sector of the cluster through
the data-block cache; the model records the zeroed cluster. -/
def clear_cluster (fs : FatFs) (c : Nat) : FatFs :=
  { fs with cleared := c :: fs.cleared }

/-- The `for i in 1..num` loop of `alloc_cluster`: clear the current cluster,
find the next free one (`assert_ne!(next_cluster, 0)` panics — `.error` — when
the scan fails), link current to next, advance. -/
def allocChainLoop (fs : FatFs) (current : Nat) :
    Nat → Except String (FatFs × Nat)
  | 0 => Except.ok (fs, current)
  | k + 1 =>
      let fs1 := clear_cluster fs current
      let next := next_free_cluster fs1.fat fs1.nEntries current
      if next = 0 then Except.error "assertion failed: next_cluster != 0"
      else allocChainLoop { fs1 with fat := set_next_cluster fs1.fat current next } next k

/-- `FAT32Manager::alloc_cluster(num)` from fat32/src/fat.rs: refuse
(`Ok none`) when `num` exceeds the FSInfo free count; otherwise take the hint
as `prev_cluster`, get the first cluster from `next_free_cluster`, run the
chain loop, clear the last cluster, mark it end-of-chain, update FSInfo
(`free_count - num`, hint = last cluster) and return the first cluster. -/
def alloc_cluster (fs : FatFs) (num : Nat) : Except String (Option (Nat × FatFs)) :=
  if num > fs.free_count then Except.ok none
  else
    let prev_cluster := fs.hint
    let first_cluster := next_free_cluster fs.fat fs.nEntries prev_cluster
    match allocChainLoop fs first_cluster (num - 1) with
    | Except.error e => Except.error e
    | Except.ok (fs1, current) =>
        let fs2 := clear_cluster fs1 current
        Except.ok (some (first_cluster,
          { fs2 with fat := set_end fs2.fat current,
                     free_count := fs.free_count - num,
                     hint := current }))

/-- The first cluster returned by a successful `alloc_cluster`. -/
def allocFirst (r : Except String (Option (Nat × FatFs))) : Option Nat :=
  match r with
  | Except.ok (some p) => some p.1
  | _ => none

theorem scanFree_hit (fat : Nat → Nat) (nEntries pos fuel : Nat)
    (h : fat pos = FREE_CLUSTER) (hf : 0 < fuel) :
    scanFree fat nEntries pos fuel = pos := by
  match fuel, hf with
  | f + 1, _ => simp [scanFree, h]

/-- The concrete file-system state of claim C5: `free_count = 10`, FSInfo hint
2, 64 FAT entries, every cluster from 2 upward free, clusters 0 and 1
reserved. -/
def fsC5 : FatFs :=
  { nEntries := 64
    fat := fun c => if c < 2 then 0x0FFFFFF8 else FREE_CLUSTER
    free_count := 10
    hint := 2
    cleared := [] }

/-- Counterexample to C5: in the claimed starting state (`free_count = 10`,
`first_free_hint = 2`, all clusters from 2 upward free), `alloc_cluster(3)`
does **not** return 2 — the spec's own `next_free_cluster` starts scanning at
`hint + 1 = 3`, so the chain starts at cluster 3. -/
theorem alloc_cluster_scenario_counterexample :
    fsC5.free_count = 10 ∧ fsC5.hint = 2 ∧
    (∀ c, 2 ≤ c → c < 64 → fsC5.fat c = FREE_CLUSTER) ∧
    allocFirst (alloc_cluster fsC5 3) = some 3 ∧
    allocFirst (alloc_cluster fsC5 3) ≠ some 2 := by
  refine ⟨rfl, rfl, ?_, by decide, by decide⟩
  intro c h2 _
  simp only [fsC5, FREE_CLUSTER, if_neg (by omega : ¬ c < 2)]

/-- C5 as amended: in the claimed starting state the chain starts at the
first free cluster **after** the hint. `alloc_cluster(3)` returns 3,
leaves FAT[3] = 4, FAT[4] = 5, FAT[5] = end-of-chain, FAT[2] still free,
`free_count = 7` and hint = 5. -/
theorem alloc_cluster_scenario_amended (fs : FatFs)
    (hn : 8 ≤ fs.nEntries) (hhint : fs.hint = 2) (hfree : fs.free_count = 10)
    (hfat : ∀ c, 2 ≤ c → c < fs.nEntries → fs.fat c = FREE_CLUSTER) :
    ∃ fs', alloc_cluster fs 3 = Except.ok (some (3, fs')) ∧
      fs'.fat 2 = FREE_CLUSTER ∧ fs'.fat 3 = 4 ∧ fs'.fat 4 = 5 ∧
      fs'.fat 5 = END_CLUSTER ∧ fs'.free_count = 7 ∧ fs'.hint = 5 := by
  have h3 : next_free_cluster fs.fat fs.nEntries 2 = 3 := by
    unfold next_free_cluster
    rw [Nat.mod_eq_of_lt (by omega)]
    exact scanFree_hit _ _ _ _ (hfat 3 (by omega) (by omega)) (by omega)
  have h4 : next_free_cluster fs.fat fs.nEntries 3 = 4 := by
    unfold next_free_cluster
    rw [Nat.mod_eq_of_lt (by omega)]
    exact scanFree_hit _ _ _ _ (hfat 4 (by omega) (by omega)) (by omega)
  have h5 : next_free_cluster (set_next_cluster fs.fat 3 4) fs.nEntries 4 = 5 := by
    unfold next_free_cluster
    rw [Nat.mod_eq_of_lt (by omega)]
    refine scanFree_hit _ _ _ _ ?_ (by omega)
    unfold set_next_cluster
    rw [if_neg (by omega : ¬ (5 : Nat) = 3)]
    exact hfat 5 (by omega) (by omega)
  refine ⟨{ nEntries := fs.nEntries,
            fat := set_end (set_next_cluster (set_next_cluster fs.fat 3 4) 4 5) 5,
            free_count := fs.free_count - 3, hint := 5,
            cleared := 5 :: 4 :: 3 :: fs.cleared }, ?_, ?_, ?_, ?_, ?_, ?_, rfl⟩
  · unfold alloc_cluster
    rw [if_neg (by omega : ¬ 3 > fs.free_count)]
    simp only [hhint, h3, allocChainLoop, clear_cluster, h4, h5]
    norm_num
  · show set_end (set_next_cluster (set_next_cluster fs.fat 3 4) 4 5) 5 2 = FREE_CLUSTER
    unfold set_end set_next_cluster
    norm_num
    exact hfat 2 (by omega) (by omega)
  · show set_end (set_next_cluster (set_next_cluster fs.fat 3 4) 4 5) 5 3 = 4
    unfold set_end set_next_cluster
    norm_num
  · show set_end (set_next_cluster (set_next_cluster fs.fat 3 4) 4 5) 5 4 = 5
    unfold set_end set_next_cluster
    norm_num
  · show set_end (set_next_cluster (set_next_cluster fs.fat 3 4) 4 5) 5 5 = END_CLUSTER
    unfold set_end set_next_cluster
    norm_num
  · show fs.free_count - 3 = 7
    omega

/-- Witness for the amended C5 theorem at the concrete state `fsC5`. -/
theorem alloc_cluster_scenario_amended_witness :
    (8 ≤ fsC5.nEntries ∧ fsC5.hint = 2 ∧ fsC5.free_count = 10) ∧
    (∃ fs', alloc_cluster fsC5 3 = Except.ok (some (3, fs')) ∧
      fs'.fat 2 = FREE_CLUSTER ∧ fs'.fat 3 = 4 ∧ fs'.fat 4 = 5 ∧
      fs'.fat 5 = END_CLUSTER ∧ fs'.free_count = 7 ∧ fs'.hint = 5) :=
  ⟨⟨by decide, rfl, rfl⟩,
    alloc_cluster_scenario_amended fsC5 (by decide) rfl rfl (by
      intro c h2 _
      simp only [fsC5, FREE_CLUSTER, if_neg (by omega : ¬ c < 2)])⟩

/-! ## open_file (os/src/fs/inode.rs) and sys_openat (os/src/syscall/fs.rs)

The `VFile` operations (`find_vfile_bypath`, `create`, `clear`) live in
fat32/src/vfs.rs, absent from the sources; they are modelled from the spec
over an abstract directory tree: a finite map from absolute component paths
to file sizes. -/

/-- Rust `str::split('/')` over the characters of a path: splits at every
separator, keeping empty pieces (so "/foo" yields ["", "foo"]). -/
def splitSlashAux : List Char → List Char → List String
  | [], acc => [String.mk acc.reverse]
  | c :: rest, acc =>
      if c = '/' then String.mk acc.reverse :: splitSlashAux rest []
      else splitSlashAux rest (c :: acc)

/-- `name.split('/').collect::<Vec<&str>>()`. -/
def splitSlash (name : String) : List String := splitSlashAux name.data []

/-- An open-file-table entry: an `OSInode` wrapping a `VFile` (identified by
its absolute component path), or any other `File` implementor
(stdin/stdout/pipe), on which `as_osinode()` fails. -/
inductive FdFile where
  | osinode (vfile : List String)
  | other
  deriving DecidableEq, Repr

/-- The abstract file system: absolute component path to file size. -/
abbrev FileSys := List (List String × Nat)

/-- Flag bit `CREATE = 1 << 6` of `OpenFlags`. -/
def CREATE : Nat := 64

/-- Flag bit `TRUNC = 1 << 10` of `OpenFlags`. -/
def TRUNC : Nat := 1024

/-- Flag bit `WRONLY = 1 << 0` of `OpenFlags`. -/
def WRONLY : Nat := 1

/-- All bits named by `OpenFlags` (RDONLY|WRONLY|RDWR|CREATE|TRUNC|O_DIRECTORY);
`OpenFlags::from_bits` fails on anything outside this mask. -/
def OPEN_FLAGS_MASK : Nat := 1 + 2 + 64 + 1024 + 2 ^ 21

/-- `bitflags` `contains` for a single-bit flag. -/
def containsFlag (flags bit : Nat) : Bool := flags &&& bit == bit

/-- `OpenFlags::read_write`. -/
def read_write (flags : Nat) : Bool × Bool :=
  if flags = 0 then (true, false)
  else if containsFlag flags WRONLY then (false, true)
  else (true, true)

/-- Modelled from the spec: `find_by_path` walks directory entries component
by component, with "." and ".." handled specially; empty components (from a
leading or doubled '/') stay in the current directory. -/
def normComps (comps : List String) : List String :=
  comps.foldl (fun acc c =>
    if c = "" ∨ c = "." then acc
    else if c = ".." then acc.dropLast
    else acc ++ [c]) []

/-- Size of the file at path `p`, when present. -/
def lookupSize (fs : FileSys) (p : List String) : Option Nat :=
  (fs.find? (fun e => e.1 == p)).map (fun e => e.2)

/-- Modelled from the spec: `VFile::find_vfile_bypath`, resolving `comps`
relative to the vfile `base`; the root vfile (path `[]`) always resolves. -/
def findVFile (base comps : List String) (fs : FileSys) : Option (List String) :=
  let p := base ++ normComps comps
  if p = [] then some []
  else if (fs.find? (fun e => e.1 == p)).isSome then some p else none

/-- Modelled from the spec: `VFile::clear` "truncates to size 0, freeing all
clusters". -/
def clearFile (p : List String) (fs : FileSys) : FileSys :=
  fs.map (fun e => if e.1 = p then (e.1, 0) else e)

/-- Modelled from the spec: `VFile::create(name, attr)` writes a fresh
directory entry for `name` into the parent directory and returns the new
empty file. -/
def createFile (base : List String) (name : String) (fs : FileSys) :
    Option (List String × FileSys) :=
  some (base ++ [name], (base ++ [name], 0) :: fs)

/-- Outcome of `open_file`: `opened` carries the `OSInode`'s
readable/writable bits, the opened vfile and the file system as mutated by
the open itself; `failed` is a `None` return; `panicked` covers the
`unwrap()` calls (empty `name`, unresolvable `pwd`, out-of-range `fd`,
`as_osinode` on a non-inode). -/
inductive OpenResult where
  | opened (readable writable : Bool) (vfile : List String) (fs : FileSys)
  | failed (fs : FileSys)
  | panicked
  deriving DecidableEq, Repr

/-- The common tail of `open_file` (the code after `vfile` is resolved from
`pwd` or from a directory fd): `CREATE` clears an existing file or creates a
missing one; otherwise `TRUNC` clears and a missing file fails. -/
def openTail (rw : Bool × Bool) (vfile : List String) (path : List String)
    (name : String) (flags : Nat) (fs : FileSys) : OpenResult :=
  if containsFlag flags CREATE then
    match findVFile vfile path fs with
    | some vf => OpenResult.opened rw.1 rw.2 vf (clearFile vf fs)
    | none =>
        match createFile vfile name fs with
        | some (vf, fs1) => OpenResult.opened rw.1 rw.2 vf fs1
        | none => OpenResult.failed fs
  else
    match findVFile vfile path fs with
    | some vf =>
        OpenResult.opened rw.1 rw.2 vf
          (if containsFlag flags TRUNC then clearFile vf fs else fs)
    | none => OpenResult.failed fs

/-- `open_file(fd, name, flags)` from os/src/fs/inode.rs. `pwd` and `fdTable`
are the current task's working directory and fd table. Branches, in source
order: absolute paths resolve from the root and are **created when missing
regardless of `CREATE`** (no `TRUNC` handling at all on this branch);
`AT_FDCWD` (or `name == "."`) with `pwd == "/"` handles `CREATE`/`TRUNC`
inline; other `pwd`s resolve the cwd vfile and fall to the common tail, as do
directory-fd opens. -/
def open_file (pwd : String) (fdTable : List (Option FdFile)) (fs : FileSys)
    (fd : Int) (name : String) (flags : Nat) : OpenResult :=
  let rw := read_write flags
  let path := splitSlash name
  if name = "" then OpenResult.panicked
  else if name.data.head? = some '/' then
    match findVFile [] path fs with
    | some vf => OpenResult.opened rw.1 rw.2 vf fs
    | none =>
        match createFile [] name fs with
        | some (vf, fs1) => OpenResult.opened rw.1 rw.2 vf fs1
        | none => OpenResult.failed fs
  else if fd = -100 ∨ name = "." then
    if pwd = "/" ∧ name ≠ "." then
      if containsFlag flags CREATE then
        match findVFile [] path fs with
        | some vf => OpenResult.opened rw.1 rw.2 vf (clearFile vf fs)
        | none =>
            match (if name.data.head? = some '.' then
                    match name.data.get? 1 with
                    | some '/' => some (String.mk (name.data.drop 2))
                    | some _ => some name
                    | none => none
                  else some name) with
            | none => OpenResult.panicked
            | some name1 =>
                match createFile [] name1 fs with
                | some (vf, fs1) => OpenResult.opened rw.1 rw.2 vf fs1
                | none => OpenResult.failed fs
      else
        match findVFile [] path fs with
        | some vf =>
            OpenResult.opened rw.1 rw.2 vf
              (if containsFlag flags TRUNC then clearFile vf fs else fs)
        | none => OpenResult.failed fs
    else
      match findVFile [] (splitSlash pwd) fs with
      | none => OpenResult.panicked
      | some vfile => openTail rw vfile path name flags fs
  else
    match fdTable.get? (fd.emod (2 ^ 64)).toNat with
    | none => OpenResult.panicked
    | some none => OpenResult.failed fs
    | some (some FdFile.other) => OpenResult.panicked
    | some (some (FdFile.osinode vfile)) => openTail rw vfile path name flags fs

/-- `TaskControlBlockInner::alloc_fd`: `(0..len).find(|fd| fd_table[fd]
.is_none())`, else push a fresh `None` slot and use its index. -/
def alloc_fd : List (Option FdFile) → Nat
  | [] => 0
  | none :: _ => 0
  | some _ :: rest => alloc_fd rest + 1

/-- Store an open file at slot `i` (`inner.fd_table[fd] = Some(inode)`,
where `alloc_fd` pushed a fresh `None` slot first when needed). -/
def setFd (t : List (Option FdFile)) (i : Nat) (f : FdFile) : List (Option FdFile) :=
  if i < t.length then t.set i (some f) else t ++ [some f]

/-- `sys_openat` from os/src/syscall/fs.rs: `OpenFlags::from_bits(flags)
.unwrap()` panics (`none`) on unknown bits; a successful `open_file` gets a
freshly allocated fd index, a `None` gives `-1`. -/
def sys_openat (pwd : String) (fdTable : List (Option FdFile)) (fs : FileSys)
    (fd : Int) (name : String) (flags : Nat) :
    Option (Int × List (Option FdFile) × FileSys) :=
  if flags &&& OPEN_FLAGS_MASK ≠ flags then none
  else
    match open_file pwd fdTable fs fd name flags with
    | OpenResult.opened _ _ vf fs1 =>
        some ((alloc_fd fdTable : Nat), setFd fdTable (alloc_fd fdTable) (FdFile.osinode vf), fs1)
    | OpenResult.failed fs1 => some (-1, fdTable, fs1)
    | OpenResult.panicked => none

/-- The stdio fd table every task starts with (stdin/stdout/stderr). -/
def stdFdTable : List (Option FdFile) := [some FdFile.other, some FdFile.other, some FdFile.other]

theorem lookupSize_clearFile (p : List String) (fs : FileSys) :
    lookupSize (clearFile p fs) p = (lookupSize fs p).map (fun _ => 0) := by
  induction fs with
  | nil => rfl
  | cons e rest ih =>
    by_cases he : e.1 = p
    · simp [clearFile, lookupSize, List.find?, he]
    · have hb : (e.1 == p) = false := beq_eq_false_iff_ne.mpr he
      simp only [clearFile, lookupSize, List.map_cons, List.find?] at *
      rw [if_neg he]
      simp only [hb]
      exact ih

theorem lookupSize_clearFile_other (p q : List String) (fs : FileSys) (hpq : q ≠ p) :
    lookupSize (clearFile p fs) q = lookupSize fs q := by
  induction fs with
  | nil => rfl
  | cons e rest ih =>
    by_cases he : e.1 = p
    · have hb : (e.1 == q) = false := beq_eq_false_iff_ne.mpr (he ▸ fun h => hpq h.symm)
      simp only [clearFile, lookupSize, List.map_cons, List.find?, if_pos he] at *
      have hb2 : (e.1 == q) = false := hb
      simp only [hb, hb2]
      exact ih
    · simp only [clearFile, lookupSize, List.map_cons, List.find?, if_neg he] at *
      by_cases hq : e.1 = q
      · simp [hq]
      · simp only [beq_eq_false_iff_ne.mpr hq]
        exact ih

theorem alloc_fd_spec (t : List (Option FdFile)) :
    t.get? (alloc_fd t) = some none ∨ alloc_fd t = t.length := by
  induction t with
  | nil => exact Or.inr rfl
  | cons s rest ih =>
    match s with
    | none => exact Or.inl rfl
    | some f =>
      rcases ih with h | h
      · exact Or.inl (by simpa [alloc_fd] using h)
      · exact Or.inr (by simpa [alloc_fd] using h)

theorem normComps_single (name : String) (h1 : name ≠ "") (h2 : name ≠ ".")
    (h3 : name ≠ "..") : normComps [name] = [name] := by
  simp [normComps, h1, h2, h3]

/-- Counterexample to C6: opening the existing file `a` (size 5) relative to
cwd `/` with flags = `CREATE` only (no `TRUNC`) truncates it to size 0 — the
`CREATE` branch of `open_file` calls `inode.clear()` on an existing file, so
an open whose flags do not contain `TRUNC` does not keep the file's size. -/
theorem open_file_create_truncates_counterexample :
    containsFlag 64 TRUNC = false ∧
    lookupSize [(["a"], 5)] ["a"] = some 5 ∧
    open_file "/" stdFdTable [(["a"], 5)] (-100) "a" 64 =
      OpenResult.opened true true ["a"] [(["a"], 0)] ∧
    lookupSize [(["a"], 0)] ["a"] = some 0 := by
  decide

/-- C6 as amended: for a single-component relative path (no leading '/' or
'.') opened at `AT_FDCWD` with cwd `/`:
(a) `CREATE` on a missing file creates it (size 0) and the open succeeds;
(b) `CREATE` on an existing file truncates it to size 0 even without `TRUNC`;
(c) without `CREATE`, an existing file is truncated exactly when `TRUNC` is
set and is left untouched otherwise;
(d) an absolute-path open of an existing file never mutates the file system —
`TRUNC` is ignored on that branch;
(e) every successful open is stored in a freshly allocated fd slot (the first
free index, or a new slot at the end) and that index is returned. -/
theorem open_file_amended (fdTable : List (Option FdFile)) (fs : FileSys)
    (name : String) (flags : Nat)
    (hsplit : splitSlash name = [name])
    (hne : name ≠ "")
    (hslash : name.data.head? ≠ some '/')
    (hdot : name.data.head? ≠ some '.') :
    ((containsFlag flags CREATE = true) →
      (fs.find? (fun e => e.1 == [name])).isSome = false →
      open_file "/" fdTable fs (-100) name flags =
        OpenResult.opened (read_write flags).1 (read_write flags).2 [name]
          (([name], 0) :: fs))
    ∧ ((containsFlag flags CREATE = true) →
      (fs.find? (fun e => e.1 == [name])).isSome = true →
      open_file "/" fdTable fs (-100) name flags =
        OpenResult.opened (read_write flags).1 (read_write flags).2 [name]
          (clearFile [name] fs))
    ∧ ((containsFlag flags CREATE = false) →
      (fs.find? (fun e => e.1 == [name])).isSome = true →
      open_file "/" fdTable fs (-100) name flags =
        OpenResult.opened (read_write flags).1 (read_write flags).2 [name]
          (if containsFlag flags TRUNC then clearFile [name] fs else fs))
    ∧ (∀ name2 : String, splitSlash name2 = ["", name] →
        name2.data.head? = some '/' → name2 ≠ "" →
        (fs.find? (fun e => e.1 == [name])).isSome = true →
        open_file "/" fdTable fs (-100) name2 flags =
          OpenResult.opened (read_write flags).1 (read_write flags).2 [name] fs)
    ∧ (∀ r w vf fs1, flags &&& OPEN_FLAGS_MASK = flags →
        open_file "/" fdTable fs (-100) name flags = OpenResult.opened r w vf fs1 →
        sys_openat "/" fdTable fs (-100) name flags =
          some (((alloc_fd fdTable : Nat) : Int),
            setFd fdTable (alloc_fd fdTable) (FdFile.osinode vf), fs1) ∧
        (fdTable.get? (alloc_fd fdTable) = some none ∨
          alloc_fd fdTable = fdTable.length)) := by
  have hnd : name ≠ "." := by
    intro h
    exact hdot (by rw [h]; rfl)
  have hndd : name ≠ ".." := by
    intro h
    exact hdot (by rw [h]; rfl)
  have hnc : normComps [name] = [name] := normComps_single name hne hnd hndd
  have hfv : findVFile [] [name] fs =
      if (fs.find? (fun e => e.1 == [name])).isSome then some [name] else none := by
    unfold findVFile
    rw [hnc]
    simp
  refine ⟨?_, ?_, ?_, ?_, ?_⟩
  · intro hC hmiss
    simp only [open_file, hsplit, if_neg hne, if_neg hslash, true_or, if_true, true_and]
    rw [if_pos hnd, if_pos hC, hfv, hmiss]
    simp only [Bool.false_eq_true, if_false, if_neg hdot]
    rfl
  · intro hC hhit
    simp only [open_file, hsplit, if_neg hne, if_neg hslash, true_or, if_true, true_and]
    rw [if_pos hnd, if_pos hC, hfv, hhit]
    rfl
  · intro hC hhit
    simp only [open_file, hsplit, if_neg hne, if_neg hslash, true_or, if_true, true_and]
    rw [if_pos hnd, if_neg (by simp [hC]), hfv, hhit]
    rfl
  · intro name2 hsplit2 hhead2 hne2 hhit
    have hnc2 : normComps ["", name] = [name] := by
      simp [normComps, hne, hnd, hndd]
    have hfv2 : findVFile [] ["", name] fs = some [name] := by
      unfold findVFile
      rw [hnc2]
      simp [hhit]
    simp only [open_file, hsplit2, if_neg hne2]
    rw [if_pos hhead2, hfv2]
  · intro r w vf fs1 hvalid hopen
    refine ⟨?_, alloc_fd_spec fdTable⟩
    unfold sys_openat
    rw [if_neg (by simp [hvalid]), hopen]

/-- Witness for the amended C6 theorem: name "a", flags `CREATE|TRUNC`-free
variants all discharged at the concrete state `[(["a"], 5)]`. -/
theorem open_file_amended_witness :
    (splitSlash "a" = ["a"] ∧ "a" ≠ "" ∧
      "a".data.head? ≠ some '/' ∧ "a".data.head? ≠ some '.') ∧
    (((containsFlag 64 CREATE = true) →
      (([(["a"], 5)] : FileSys).find? (fun e => e.1 == ["a"])).isSome = false →
      open_file "/" stdFdTable [(["a"], 5)] (-100) "a" 64 =
        OpenResult.opened (read_write 64).1 (read_write 64).2 ["a"]
          ((["a"], 0) :: [(["a"], 5)]))
    ∧ ((containsFlag 64 CREATE = true) →
      (([(["a"], 5)] : FileSys).find? (fun e => e.1 == ["a"])).isSome = true →
      open_file "/" stdFdTable [(["a"], 5)] (-100) "a" 64 =
        OpenResult.opened (read_write 64).1 (read_write 64).2 ["a"]
          (clearFile ["a"] [(["a"], 5)]))
    ∧ ((containsFlag 64 CREATE = false) →
      (([(["a"], 5)] : FileSys).find? (fun e => e.1 == ["a"])).isSome = true →
      open_file "/" stdFdTable [(["a"], 5)] (-100) "a" 64 =
        OpenResult.opened (read_write 64).1 (read_write 64).2 ["a"]
          (if containsFlag 64 TRUNC then clearFile ["a"] [(["a"], 5)]
            else [(["a"], 5)]))
    ∧ (∀ name2 : String, splitSlash name2 = ["", "a"] →
        name2.data.head? = some '/' → name2 ≠ "" →
        (([(["a"], 5)] : FileSys).find? (fun e => e.1 == ["a"])).isSome = true →
        open_file "/" stdFdTable [(["a"], 5)] (-100) name2 64 =
          OpenResult.opened (read_write 64).1 (read_write 64).2 ["a"] [(["a"], 5)])
    ∧ (∀ r w vf fs1, (64 : Nat) &&& OPEN_FLAGS_MASK = 64 →
        open_file "/" stdFdTable [(["a"], 5)] (-100) "a" 64 = OpenResult.opened r w vf fs1 →
        sys_openat "/" stdFdTable [(["a"], 5)] (-100) "a" 64 =
          some (((alloc_fd stdFdTable : Nat) : Int),
            setFd stdFdTable (alloc_fd stdFdTable) (FdFile.osinode vf), fs1) ∧
        (stdFdTable.get? (alloc_fd stdFdTable) = some none ∨
          alloc_fd stdFdTable = stdFdTable.length))) :=
  ⟨⟨by decide, by decide, by decide, by decide⟩,
    open_file_amended stdFdTable [(["a"], 5)] "a" 64
      (by decide) (by decide) (by decide) (by decide)⟩

/-! ## Frame allocator (os/src/mm/frame_allocator.rs, `StackFrameAllocator`) -/

/-- `StackFrameAllocator`: next-fresh frame `current`, exclusive upper bound
`endp` (the field `end` in Rust), and the `recycled` vector (its last element
is the top of the stack, as popped by `Vec::pop`). -/
structure StackFrameAllocator where
  current : Nat
  endp : Nat
  recycled : List Nat
  deriving DecidableEq, Repr

/-- `StackFrameAllocator::alloc`: pop a recycled frame if any, else hand out
`current` and advance it; `none` when the range is exhausted. -/
def StackFrameAllocator.alloc (a : StackFrameAllocator) :
    Option (Nat × StackFrameAllocator) :=
  match a.recycled.getLast? with
  | some ppn => some (ppn, { a with recycled := a.recycled.dropLast })
  | none =>
      if a.current = a.endp then none
      else some (a.current, { a with current := a.current + 1 })

/-- `StackFrameAllocator::dealloc`: a frame that was never handed out
(`ppn >= current`) or is already recycled is a fatal programmer error
(`none`); otherwise push it onto the recycled vector. -/
def StackFrameAllocator.dealloc (a : StackFrameAllocator) (ppn : Nat) :
    Option StackFrameAllocator :=
  if a.current ≤ ppn ∨ a.recycled.contains ppn then none
  else some { a with recycled := a.recycled ++ [ppn] }

/-- Allocator sanity: recycled frames are pairwise distinct and below
`current`. Holds for the boot allocator (empty recycled list) and is
preserved by `alloc`/`dealloc`. -/
def AllocWF (a : StackFrameAllocator) : Prop :=
  a.recycled.Nodup ∧ ∀ r ∈ a.recycled, r < a.current

/-- Number of frames the allocator can still hand out. -/
def frameCap (a : StackFrameAllocator) : Nat :=
  a.recycled.length + (a.endp - a.current)

/-! ## sys_mmap (os/src/syscall/process.rs) -/

/-- A terminal SV39 page-table entry as `sys_mmap` observes it: the mapped
physical page number and the flag bits (bit 0 is `V`). -/
structure PTEntry where
  ppn : Nat
  flags : Nat
  deriving DecidableEq, Repr

/-- `PageTableEntry::is_valid`. -/
def PTEntry.is_valid (e : PTEntry) : Bool := e.flags &&& 1 != 0

/-- The terminal level of a page table: virtual page number to entry; absent
terminal entries (missing intermediate nodes) are simply missing keys. -/
abbrev PageTable := List (Nat × PTEntry)

/-- `PageTable::translate`: the terminal entry, possibly an invalid one. -/
def ptTranslate (pt : PageTable) (vpn : Nat) : Option PTEntry :=
  (pt.find? (fun e => e.1 == vpn)).map (fun e => e.2)

/-- `translate(vpn)` exists and has `V` set. -/
def isValidAt (pt : PageTable) (vpn : Nat) : Bool :=
  match ptTranslate pt vpn with
  | some e => e.is_valid
  | none => false

/-- `PageTable::map` (reached through `map_one` →
`MemorySet::map`): create the terminal entry if missing, then
`assert!(!pte.is_valid())` — fatal (`none`) on an already-valid entry —
and store `PTEntry::new(ppn, flags | V)`. -/
def ptMap (pt : PageTable) (vpn ppn flags : Nat) : Option PageTable :=
  match pt.find? (fun e => e.1 == vpn) with
  | some e =>
      if e.2.is_valid then none
      else some (pt.map (fun x => if x.1 = vpn then (vpn, ⟨ppn, flags ||| 1⟩) else x))
  | none => some ((vpn, ⟨ppn, flags ||| 1⟩) :: pt)

/-- `VirtAddr::floor` (page number of an address). -/
def vaFloor (x : Nat) : Nat := x / 4096

/-- `VirtAddr::ceil`: `(self.0 - 1 + PAGE_SIZE) / PAGE_SIZE` (the claims only
exercise `x ≥ 1`, where truncated `Nat` subtraction agrees with Rust). -/
def vaCeil (x : Nat) : Nat := (x - 1 + 4096) / 4096

/-- `VPNRange::new(s, e)` iterated: the pages `s, s+1, …, e-1`. -/
def vpnRange (s e : Nat) : List Nat := List.range' s (e - s)

/-- Outcome of the mapping loop of `sys_mmap`. -/
inductive MmapLoopOut where
  | ok (pt : PageTable) (alloc : StackFrameAllocator)
  | overlap (pt : PageTable) (alloc : StackFrameAllocator)
  | panic
  deriving Repr

/-- The `for vpn in vir` loop of `sys_mmap`: allocate a frame
(`frame_alloc().unwrap()`, fatal when exhausted), translate `vpn`, and either
fail with `-1` on a valid mapping (`overlap`) or map the page. The local
`FrameTracker` is dropped at the end of each iteration — also on the
`return -1` path — which recycles the just-used frame even though the mapping
it backs stays in the table. -/
def mmapLoop (pt : PageTable) (alloc : StackFrameAllocator) (flag : Nat) :
    List Nat → MmapLoopOut
  | [] => MmapLoopOut.ok pt alloc
  | vpn :: rest =>
      match alloc.alloc with
      | none => MmapLoopOut.panic
      | some (ppn, alloc1) =>
          match ptTranslate pt vpn with
          | some pte =>
              if pte.is_valid then
                match alloc1.dealloc ppn with
                | some alloc2 => MmapLoopOut.overlap pt alloc2
                | none => MmapLoopOut.panic
              else
                match ptMap pt vpn ppn flag with
                | some pt1 =>
                    match alloc1.dealloc ppn with
                    | some alloc2 => mmapLoop pt1 alloc2 flag rest
                    | none => MmapLoopOut.panic
                | none => MmapLoopOut.panic
          | none =>
              match ptMap pt vpn ppn flag with
              | some pt1 =>
                  match alloc1.dealloc ppn with
                  | some alloc2 => mmapLoop pt1 alloc2 flag rest
                  | none => MmapLoopOut.panic
              | none => MmapLoopOut.panic

/-- The state `sys_mmap` works on: the current task's terminal page table,
the global frame allocator, `program_brk` and the fd table. -/
structure MmapState where
  pt : PageTable
  alloc : StackFrameAllocator
  program_brk : Nat
  fdTable : List (Option FdFile)
  deriving Repr

/-- Outcome of `sys_mmap`: a returned `isize` with the final state, or a
kernel panic. -/
inductive MmapOut where
  | ret (v : Int) (st : MmapState)
  | panic
  deriving Repr

/-- The page range `sys_mmap` actually maps: `start` is silently relocated to
`program_brk + 8 pages` when zero; then `[floor(start), ceil(start+len))`. -/
def mmapRange (st : MmapState) (start len : Nat) : List Nat :=
  let start1 := if start = 0 then st.program_brk + 4096 * 8 else start
  vpnRange (vaFloor start1) (vaCeil (start1 + len))

/-- `sys_mmap(start, len, port, flags, fd, offset)` from
os/src/syscall/process.rs. Checks `start % 4096`, `port & !0x7`, `port & 0x7`;
relocates `start == 0` to `program_brk + 8` pages; maps each page of the
range with flags `U | ((port as u8) << 5 >> 4)`, returning `-1` on the first
already-valid page; finally requires an open file behind `fd` — a `None` slot
returns `-1` with every new mapping left in place, an out-of-range `fd` or a
non-inode file panics, and an inode fd reads the file into the region
(memory contents are not modelled) and returns the mapped base address. -/
def sys_mmap (st : MmapState) (start len port : Nat) (fd : Int) : MmapOut :=
  if start % 4096 ≠ 0 ∨ port &&& (2 ^ 64 - 8) ≠ 0 ∨ port &&& 7 = 0 then
    MmapOut.ret (-1) st
  else
    let start1 := if start = 0 then st.program_brk + 4096 * 8 else start
    let s := vaFloor start1
    let e := vaCeil (start1 + len)
    let flag := 16 ||| (port % 256 * 32 % 256) / 16
    match mmapLoop st.pt st.alloc flag (vpnRange s e) with
    | MmapLoopOut.panic => MmapOut.panic
    | MmapLoopOut.overlap pt1 alloc1 =>
        MmapOut.ret (-1) { st with pt := pt1, alloc := alloc1 }
    | MmapLoopOut.ok pt1 alloc1 =>
        match st.fdTable.get? (fd.emod (2 ^ 64)).toNat with
        | none => MmapOut.panic
        | some none => MmapOut.ret (-1) { st with pt := pt1, alloc := alloc1 }
        | some (some FdFile.other) => MmapOut.panic
        | some (some (FdFile.osinode _)) =>
            MmapOut.ret ((s * 4096 : Nat) : Int) { st with pt := pt1, alloc := alloc1 }

theorem find?_update_self (pt : PageTable) (vpn : Nat) (ne : PTEntry)
    (h : (pt.find? (fun e => e.1 == vpn)).isSome = true) :
    (pt.map (fun x => if x.1 = vpn then (vpn, ne) else x)).find?
        (fun e => e.1 == vpn) = some (vpn, ne) := by
  induction pt with
  | nil => simp at h
  | cons x rest ih =>
    by_cases hx : x.1 = vpn
    · simp [List.find?, hx]
    · have hb : (x.1 == vpn) = false := beq_eq_false_iff_ne.mpr hx
      simp only [List.find?, hb, List.map_cons, if_neg hx] at *
      exact ih h

theorem find?_update_other (pt : PageTable) (vpn v : Nat) (ne : PTEntry) (h : v ≠ vpn) :
    (pt.map (fun x => if x.1 = vpn then (vpn, ne) else x)).find? (fun e => e.1 == v) =
      pt.find? (fun e => e.1 == v) := by
  induction pt with
  | nil => rfl
  | cons x rest ih =>
    by_cases hx : x.1 = vpn
    · have h1 : (vpn == v) = false := beq_eq_false_iff_ne.mpr (fun hh => h hh.symm)
      have h2 : (x.1 == v) = false := beq_eq_false_iff_ne.mpr (fun hh => h (hx ▸ hh).symm)
      simp only [List.map_cons, if_pos hx, List.find?, h1, h2]
      exact ih
    · simp only [List.map_cons, if_neg hx, List.find?]
      cases hxv : (x.1 == v) with
      | true => rfl
      | false => exact ih

theorem isValidAt_congr (pt1 pt2 : PageTable) (v : Nat)
    (h : ptTranslate pt1 v = ptTranslate pt2 v) :
    isValidAt pt1 v = isValidAt pt2 v := by
  unfold isValidAt
  rw [h]

theorem valid_after_or_one (ppn flags : Nat) :
    PTEntry.is_valid ⟨ppn, flags ||| 1⟩ = true := by
  unfold PTEntry.is_valid
  rw [Nat.and_one_is_mod]
  have h : (flags ||| 1) % 2 = 1 := by
    rw [Nat.mod_two_eq_one_iff_testBit_zero, Nat.testBit_or]
    have h1 : Nat.testBit 1 0 = true := by decide
    rw [h1, Bool.or_true]
  rw [h]
  rfl

theorem ptMap_spec (pt : PageTable) (vpn ppn flags : Nat)
    (h : isValidAt pt vpn = false) :
    ∃ pt', ptMap pt vpn ppn flags = some pt' ∧
      isValidAt pt' vpn = true ∧
      ∀ v, v ≠ vpn → ptTranslate pt' v = ptTranslate pt v := by
  unfold ptMap
  rcases hf : pt.find? (fun e => e.1 == vpn) with _ | e
  · rw [hf]
    refine ⟨(vpn, ⟨ppn, flags ||| 1⟩) :: pt, rfl, ?_, ?_⟩
    · simp [isValidAt, ptTranslate, List.find?, valid_after_or_one]
    · intro v hv
      have hb : (vpn == v) = false := beq_eq_false_iff_ne.mpr (fun hh => hv hh.symm)
      simp [ptTranslate, List.find?, hb]
  · have hnv : e.2.is_valid = false := by
      unfold isValidAt ptTranslate at h
      rw [hf] at h
      simpa using h
    rw [hf]
    simp only [hnv, Bool.false_eq_true, if_false]
    refine ⟨_, rfl, ?_, ?_⟩
    · unfold isValidAt ptTranslate
      rw [find?_update_self pt vpn ⟨ppn, flags ||| 1⟩ (by rw [hf]; rfl)]
      simp [valid_after_or_one]
    · intro v hv
      unfold ptTranslate
      rw [find?_update_other pt vpn v ⟨ppn, flags ||| 1⟩ hv]

theorem allocCycle (a : StackFrameAllocator) (hwf : AllocWF a)
    (hcap : 1 ≤ frameCap a) :
    ∃ ppn a1 a2, a.alloc = some (ppn, a1) ∧ a1.dealloc ppn = some a2 ∧
      AllocWF a2 ∧ frameCap a2 = frameCap a := by
  rcases hl : a.recycled.getLast? with _ | ppn
  · have hrec : a.recycled = [] := List.getLast?_eq_none_iff.mp hl
    have hlt : a.current < a.endp := by
      unfold frameCap at hcap
      rw [hrec] at hcap
      simp at hcap
      omega
    refine ⟨a.current, { a with current := a.current + 1 },
      { current := a.current + 1, endp := a.endp,
        recycled := a.recycled ++ [a.current] }, ?_, ?_, ⟨?_, ?_⟩, ?_⟩
    · unfold StackFrameAllocator.alloc
      rw [hl, if_neg (Nat.ne_of_lt hlt)]
    · unfold StackFrameAllocator.dealloc
      rw [if_neg (by
        rw [hrec]
        simp [List.contains])]
    · show (a.recycled ++ [a.current]).Nodup
      rw [hrec]
      simp
    · intro r hr
      have hr' : r ∈ a.recycled ++ [a.current] := hr
      rw [hrec] at hr'
      simp at hr'
      show r < a.current + 1
      omega
    · show (a.recycled ++ [a.current]).length + (a.endp - (a.current + 1)) =
        a.recycled.length + (a.endp - a.current)
      rw [hrec]
      simp
      omega
  · have hmem : ppn ∈ a.recycled := List.mem_of_mem_getLast? (by rw [hl]; rfl)
    have heq : a.recycled.dropLast ++ [ppn] = a.recycled :=
      List.dropLast_append_getLast? ppn (by rw [hl]; rfl)
    have hlt : ppn < a.current := hwf.2 ppn hmem
    have hnd : ppn ∉ a.recycled.dropLast := by
      intro hin
      have hx := heq ▸ hwf.1
      rw [List.nodup_append] at hx
      exact hx.2.2 hin (by simp)
    refine ⟨ppn, { a with recycled := a.recycled.dropLast },
      { a with recycled := a.recycled.dropLast ++ [ppn] }, ?_, ?_, ⟨?_, ?_⟩, ?_⟩
    · unfold StackFrameAllocator.alloc
      rw [hl]
    · unfold StackFrameAllocator.dealloc
      rw [if_neg (by
        simp only [List.contains]
        push_neg
        refine ⟨by omega, ?_⟩
        intro hin
        exact hnd (by simpa using hin))]
    · show (a.recycled.dropLast ++ [ppn]).Nodup
      rw [heq]
      exact hwf.1
    · intro r hr
      have hr' : r ∈ a.recycled.dropLast ++ [ppn] := hr
      rw [heq] at hr'
      show r < a.current
      exact hwf.2 r hr'
    · show (a.recycled.dropLast ++ [ppn]).length + (a.endp - a.current) =
        a.recycled.length + (a.endp - a.current)
      rw [heq]

theorem mmapLoop_cons_step (pt pt1 : PageTable) (a a1 a2 : StackFrameAllocator)
    (flag vpn ppn : Nat) (rest : List Nat)
    (halloc : a.alloc = some (ppn, a1)) (hdeal : a1.dealloc ppn = some a2)
    (hfv : isValidAt pt vpn = false) (hmap : ptMap pt vpn ppn flag = some pt1) :
    mmapLoop pt a flag (vpn :: rest) = mmapLoop pt1 a2 flag rest := by
  conv_lhs => unfold mmapLoop
  rcases ht : ptTranslate pt vpn with _ | pte
  · simp only [halloc, ht, hmap, hdeal]
  · have hnv : pte.is_valid = false := by
      unfold isValidAt at hfv
      rw [ht] at hfv
      exact hfv
    simp only [halloc, ht, hnv, Bool.false_eq_true, if_false, hmap, hdeal]

theorem mmapLoop_cons_overlap (pt : PageTable) (a a1 a2 : StackFrameAllocator)
    (flag vpn ppn : Nat) (rest : List Nat)
    (halloc : a.alloc = some (ppn, a1)) (hdeal : a1.dealloc ppn = some a2)
    (hv : isValidAt pt vpn = true) :
    mmapLoop pt a flag (vpn :: rest) = MmapLoopOut.overlap pt a2 := by
  conv_lhs => unfold mmapLoop
  unfold isValidAt at hv
  rcases ht : ptTranslate pt vpn with _ | pte
  · rw [ht] at hv
    simp at hv
  · rw [ht] at hv
    simp only at hv
    simp only [halloc, ht, hv, if_true, hdeal]

theorem mmapLoop_ok (vpns : List Nat) (pt : PageTable) (a : StackFrameAllocator)
    (flag : Nat) (hwf : AllocWF a) (hcap : 1 ≤ frameCap a) (hnodup : vpns.Nodup)
    (hfree : ∀ v ∈ vpns, isValidAt pt v = false) :
    ∃ pt' a', mmapLoop pt a flag vpns = MmapLoopOut.ok pt' a' ∧
      (∀ v ∈ vpns, isValidAt pt' v = true) ∧
      (∀ v, v ∉ vpns → ptTranslate pt' v = ptTranslate pt v) := by
  induction vpns generalizing pt a with
  | nil => exact ⟨pt, a, rfl, by simp, fun v _ => rfl⟩
  | cons vpn rest ih =>
    obtain ⟨ppn, a1, a2, halloc, hdeal, hwf2, hcap2⟩ := allocCycle a hwf hcap
    have hfv : isValidAt pt vpn = false := hfree vpn (List.mem_cons_self _ _)
    obtain ⟨pt1, hmap, hvalid1, hother1⟩ := ptMap_spec pt vpn ppn flag hfv
    have hstep := mmapLoop_cons_step pt pt1 a a1 a2 flag vpn ppn rest halloc hdeal hfv hmap
    have hnodup' : rest.Nodup := (List.nodup_cons.mp hnodup).2
    have hvnin : vpn ∉ rest := (List.nodup_cons.mp hnodup).1
    have hfree' : ∀ v ∈ rest, isValidAt pt1 v = false := by
      intro v hv
      have hne : v ≠ vpn := fun hh => hvnin (hh ▸ hv)
      rw [isValidAt_congr pt1 pt v (hother1 v hne)]
      exact hfree v (List.mem_cons_of_mem _ hv)
    obtain ⟨pt', a', hloop, hall, hoth⟩ :=
      ih pt1 a2 hwf2 (hcap2 ▸ hcap) hnodup' hfree'
    refine ⟨pt', a', by rw [hstep, hloop], ?_, ?_⟩
    · intro v hv
      rcases List.mem_cons.mp hv with rfl | hv
      · rw [isValidAt_congr pt' pt1 v (hoth v hvnin)]
        exact hvalid1
      · exact hall v hv
    · intro v hv
      have hv1 : v ≠ vpn := fun hh => hv (hh ▸ List.mem_cons_self _ _)
      have hv2 : v ∉ rest := fun hh => hv (List.mem_cons_of_mem _ hh)
      rw [hoth v hv2, hother1 v hv1]

theorem mmapLoop_overlap (vpns : List Nat) (pt : PageTable)
    (a : StackFrameAllocator) (flag : Nat)
    (hwf : AllocWF a) (hcap : 1 ≤ frameCap a)
    (hover : ∃ v ∈ vpns, isValidAt pt v = true) :
    ∃ pt' a', mmapLoop pt a flag vpns = MmapLoopOut.overlap pt' a' := by
  induction vpns generalizing pt a with
  | nil =>
    obtain ⟨v, hv, _⟩ := hover
    cases hv
  | cons vpn rest ih =>
    obtain ⟨ppn, a1, a2, halloc, hdeal, hwf2, hcap2⟩ := allocCycle a hwf hcap
    by_cases hv : isValidAt pt vpn = true
    · exact ⟨pt, a2, mmapLoop_cons_overlap pt a a1 a2 flag vpn ppn rest halloc hdeal hv⟩
    · have hfv : isValidAt pt vpn = false := by
        cases hx : isValidAt pt vpn
        · rfl
        · exact absurd hx hv
      obtain ⟨pt1, hmap, hvalid1, hother1⟩ := ptMap_spec pt vpn ppn flag hfv
      have hstep := mmapLoop_cons_step pt pt1 a a1 a2 flag vpn ppn rest halloc hdeal hfv hmap
      obtain ⟨w, hwmem, hwval⟩ := hover
      have hover' : ∃ v ∈ rest, isValidAt pt1 v = true := by
        rcases List.mem_cons.mp hwmem with rfl | hmem
        · exact absurd hwval hv
        · by_cases hww : w = vpn
          · subst hww
            exact ⟨w, hmem, hvalid1⟩
          · exact ⟨w, hmem, by rw [isValidAt_congr pt1 pt w (hother1 w hww)]; exact hwval⟩
      obtain ⟨pt', a', hloop⟩ := ih pt1 a2 hwf2 (hcap2 ▸ hcap) hover'
      exact ⟨pt', a', by rw [hstep, hloop]⟩

/-- **C8.** `sys_mmap` returns `-1` when the start address is not
page-aligned, when the permission bits are zero or include bits outside
`R|W|X`, or when some page of the range it operates on (after the `start == 0`
relocation to `program_brk + 8` pages) is already validly mapped. -/
theorem mmap_rejects_invalid_args (st : MmapState) (start len port : Nat) (fd : Int)
    (hwf : AllocWF st.alloc) (hcap : 1 ≤ frameCap st.alloc) :
    (start % 4096 ≠ 0 → sys_mmap st start len port fd = MmapOut.ret (-1) st)
    ∧ (port &&& (2 ^ 64 - 8) ≠ 0 → sys_mmap st start len port fd = MmapOut.ret (-1) st)
    ∧ (port &&& 7 = 0 → sys_mmap st start len port fd = MmapOut.ret (-1) st)
    ∧ ((∃ v ∈ mmapRange st start len, isValidAt st.pt v = true) →
        ∃ st', sys_mmap st start len port fd = MmapOut.ret (-1) st') := by
  refine ⟨?_, ?_, ?_, ?_⟩
  · intro h
    unfold sys_mmap
    rw [if_pos (Or.inl h)]
  · intro h
    unfold sys_mmap
    rw [if_pos (Or.inr (Or.inl h))]
  · intro h
    unfold sys_mmap
    rw [if_pos (Or.inr (Or.inr h))]
  · intro hover
    by_cases hc : start % 4096 ≠ 0 ∨ port &&& (2 ^ 64 - 8) ≠ 0 ∨ port &&& 7 = 0
    · exact ⟨st, by unfold sys_mmap; rw [if_pos hc]⟩
    · obtain ⟨pt', a', hloop⟩ := mmapLoop_overlap (mmapRange st start len) st.pt st.alloc
        (16 ||| (port % 256 * 32 % 256) / 16) hwf hcap hover
      have hloop' : mmapLoop st.pt st.alloc (16 ||| (port % 256 * 32 % 256) / 16)
          (vpnRange (vaFloor (if start = 0 then st.program_brk + 4096 * 8 else start))
            (vaCeil ((if start = 0 then st.program_brk + 4096 * 8 else start) + len))) =
          MmapLoopOut.overlap pt' a' := hloop
      refine ⟨{ st with pt := pt', alloc := a' }, ?_⟩
      simp only [sys_mmap]
      rw [if_neg hc, hloop']

/-- Witness for C8 at a concrete state: misaligned start, invalid port bits,
zero permissions, and a pre-mapped page each force `-1`. -/
theorem mmap_rejects_invalid_args_witness :
    (AllocWF (MmapState.mk [(1, ⟨77, 31⟩)] ⟨100, 200, []⟩ 65536
        [some FdFile.other, none]).alloc ∧
      1 ≤ frameCap (MmapState.mk [(1, ⟨77, 31⟩)] ⟨100, 200, []⟩ 65536
        [some FdFile.other, none]).alloc) ∧
    ((4097 % 4096 ≠ 0 →
        sys_mmap (MmapState.mk [(1, ⟨77, 31⟩)] ⟨100, 200, []⟩ 65536
          [some FdFile.other, none]) 4097 4096 7 1 =
          MmapOut.ret (-1) (MmapState.mk [(1, ⟨77, 31⟩)] ⟨100, 200, []⟩ 65536
            [some FdFile.other, none]))
    ∧ ((7 : Nat) &&& (2 ^ 64 - 8) ≠ 0 →
        sys_mmap (MmapState.mk [(1, ⟨77, 31⟩)] ⟨100, 200, []⟩ 65536
          [some FdFile.other, none]) 4097 4096 7 1 =
          MmapOut.ret (-1) (MmapState.mk [(1, ⟨77, 31⟩)] ⟨100, 200, []⟩ 65536
            [some FdFile.other, none]))
    ∧ ((7 : Nat) &&& 7 = 0 →
        sys_mmap (MmapState.mk [(1, ⟨77, 31⟩)] ⟨100, 200, []⟩ 65536
          [some FdFile.other, none]) 4097 4096 7 1 =
          MmapOut.ret (-1) (MmapState.mk [(1, ⟨77, 31⟩)] ⟨100, 200, []⟩ 65536
            [some FdFile.other, none]))
    ∧ ((∃ v ∈ mmapRange (MmapState.mk [(1, ⟨77, 31⟩)] ⟨100, 200, []⟩ 65536
            [some FdFile.other, none]) 4097 4096,
          isValidAt [(1, ⟨77, 31⟩)] v = true) →
        ∃ st', sys_mmap (MmapState.mk [(1, ⟨77, 31⟩)] ⟨100, 200, []⟩ 65536
          [some FdFile.other, none]) 4097 4096 7 1 = MmapOut.ret (-1) st')) :=
  ⟨⟨⟨by decide, by decide⟩, by decide⟩,
    mmap_rejects_invalid_args
      (MmapState.mk [(1, ⟨77, 31⟩)] ⟨100, 200, []⟩ 65536 [some FdFile.other, none])
      4097 4096 7 1 ⟨by decide, by decide⟩ (by decide)⟩

/-- **C10.** When the alignment/permission checks pass, no page of the
(possibly relocated) range is validly mapped, and the `fd` argument indexes an
fd-table slot holding `None`, `sys_mmap` returns `-1` even though by then it
has mapped every page of the range — and it leaves all those mappings in
place on this error path. -/
theorem mmap_missing_fd_maps_then_fails (st : MmapState) (start len port : Nat)
    (fd : Int) (hwf : AllocWF st.alloc) (hcap : 1 ≤ frameCap st.alloc)
    (h1 : start % 4096 = 0) (h2 : port &&& (2 ^ 64 - 8) = 0) (h3 : port &&& 7 ≠ 0)
    (hfree : ∀ v ∈ mmapRange st start len, isValidAt st.pt v = false)
    (hfd : st.fdTable.get? (fd.emod (2 ^ 64)).toNat = some none) :
    ∃ st', sys_mmap st start len port fd = MmapOut.ret (-1) st' ∧
      ∀ v ∈ mmapRange st start len, isValidAt st'.pt v = true := by
  obtain ⟨pt', a', hloop, hall, _⟩ := mmapLoop_ok (mmapRange st start len) st.pt st.alloc
    (16 ||| (port % 256 * 32 % 256) / 16) hwf hcap (List.nodup_range' _ _) hfree
  have hloop' : mmapLoop st.pt st.alloc (16 ||| (port % 256 * 32 % 256) / 16)
      (vpnRange (vaFloor (if start = 0 then st.program_brk + 4096 * 8 else start))
        (vaCeil ((if start = 0 then st.program_brk + 4096 * 8 else start) + len))) =
      MmapLoopOut.ok pt' a' := hloop
  refine ⟨{ st with pt := pt', alloc := a' }, ?_, hall⟩
  simp only [sys_mmap]
  rw [if_neg (by
    push_neg
    exact ⟨h1, h2, h3⟩), hloop', hfd]

/-- Witness for C10: with an empty page table, one free slotless fd (index 1
holds `None`), mapping one page at `0x1000` and passing `fd = 1` returns `-1`
while the page stays mapped. -/
theorem mmap_missing_fd_maps_then_fails_witness :
    (AllocWF (⟨100, 200, []⟩ : StackFrameAllocator) ∧
      1 ≤ frameCap (⟨100, 200, []⟩ : StackFrameAllocator) ∧
      4096 % 4096 = 0 ∧ (7 : Nat) &&& (2 ^ 64 - 8) = 0 ∧ (7 : Nat) &&& 7 ≠ 0 ∧
      (∀ v ∈ mmapRange (MmapState.mk [] ⟨100, 200, []⟩ 65536
          [some FdFile.other, none]) 4096 4096, isValidAt [] v = false) ∧
      (MmapState.mk [] ⟨100, 200, []⟩ 65536
          [some FdFile.other, none]).fdTable.get?
        ((1 : Int).emod (2 ^ 64)).toNat = some none) ∧
    (∃ st', sys_mmap (MmapState.mk [] ⟨100, 200, []⟩ 65536
        [some FdFile.other, none]) 4096 4096 7 1 = MmapOut.ret (-1) st' ∧
      ∀ v ∈ mmapRange (MmapState.mk [] ⟨100, 200, []⟩ 65536
          [some FdFile.other, none]) 4096 4096, isValidAt st'.pt v = true) :=
  ⟨⟨⟨by decide, by decide⟩, by decide, by decide, by decide, by decide,
      by decide, by decide⟩,
    mmap_missing_fd_maps_then_fails
      (MmapState.mk [] ⟨100, 200, []⟩ 65536 [some FdFile.other, none])
      4096 4096 7 1 ⟨by decide, by decide⟩ (by decide) (by decide) (by decide)
      (by decide) (by decide) (by decide)⟩

/-! ## Fork copy of an address space (os/src/mm/memory_set.rs,
`MemorySet::from_existed_user`, `MapArea::map_one`, together with
`FrameTracker::new` from os/src/mm/frame_allocator.rs) -/

/-- `MapType` from os/src/mm/memory_set.rs. -/
inductive MapType where
  | Identical
  | Framed
  deriving DecidableEq, Repr

/-- A `MapArea` descriptor: its half-open vpn range, map type, and permission
bits (`map_perm.bits`, valid PTE flag bits). `from_another` copies exactly
these; the `data_frames` ownership map is implicit in the model (frames of an
area are never deallocated while the area lives, matching `FrameTracker`
ownership inside `data_frames`). -/
structure MArea where
  vpnStart : Nat
  vpnEnd : Nat
  mapType : MapType
  perm : Nat
  deriving DecidableEq, Repr

/-- The vpns of `vpn_range` in iteration order. -/
def MArea.range (a : MArea) : List Nat := List.range' a.vpnStart (a.vpnEnd - a.vpnStart)

/-- An address space: terminal page table plus area descriptors. -/
structure MSet where
  pt : PageTable
  areas : List MArea
  deriving Repr

/-- A 4 KiB physical page: byte offset to byte value. -/
def PhysPage : Type := Nat → Nat

/-- Physical memory: physical page number to page contents. -/
def Mem : Type := Nat → PhysPage

/-- Mutable machine state threaded through fork: the global frame allocator
and physical memory. -/
structure SysSt where
  alloc : StackFrameAllocator
  mem : Mem

/-- `FrameTracker::new` zero-fills the frame it wraps. -/
def zeroPage : PhysPage := fun _ => 0

/-- `frame_alloc()` (including the `FrameTracker::new` zeroing). -/
def frameAllocZero (st : SysSt) : Option (Nat × SysSt) :=
  match st.alloc.alloc with
  | none => none
  | some (ppn, a') =>
      some (ppn, ⟨a', fun p => if p = ppn then zeroPage else st.mem p⟩)

/-- The highest virtual page of SV39, where the trampoline is mapped. -/
def TRAMPOLINE_VPN : Nat := 2 ^ 27 - 1

/-- The kernel-text frame holding the trampoline (`strampoline`); its
number is immaterial to the properties proved here. -/
def STRAMPOLINE_PPN : Nat := 0

/-- `MemorySet::new_bare()` followed by `map_trampoline()`: an empty table
with the trampoline page mapped R|X (bits 2 and 8; `map` adds V). -/
def newBareTrampoline : PageTable :=
  [(TRAMPOLINE_VPN, ⟨STRAMPOLINE_PPN, (2 + 8) ||| 1⟩)]

/-- `MapArea::map_one`: `Identical` maps `ppn = vpn` without allocating;
`Framed` allocates a zeroed frame and maps it. `none` models both the
`frame_alloc().unwrap()` panic and the `assert!(!pte.is_valid())` panic of
`PageTable::map`. -/
def mapOneArea (mt : MapType) (perm : Nat) (cpt : PageTable) (st : SysSt)
    (vpn : Nat) : Option (PageTable × SysSt) :=
  match mt with
  | MapType.Identical => (ptMap cpt vpn vpn perm).map (fun cpt' => (cpt', st))
  | MapType.Framed =>
      match frameAllocZero st with
      | none => none
      | some (ppn, st') => (ptMap cpt vpn ppn perm).map (fun cpt' => (cpt', st'))

/-- `MapArea::map`: `map_one` over the area's vpn range. -/
def mapAreaVpns (mt : MapType) (perm : Nat) :
    PageTable → SysSt → List Nat → Option (PageTable × SysSt)
  | cpt, st, [] => some (cpt, st)
  | cpt, st, v :: rest =>
      match mapOneArea mt perm cpt st v with
      | none => none
      | some (cpt', st') => mapAreaVpns mt perm cpt' st' rest

/-- The per-area copy loop of `from_existed_user`:
`dst_ppn.get_bytes_array().copy_from_slice(src_ppn.get_bytes_array())` for
each vpn, with `src_ppn`/`dst_ppn` from the two tables' `translate(vpn)
.unwrap()`. -/
def copyVpns (ppt cpt : PageTable) : SysSt → List Nat → Option SysSt
  | st, [] => some st
  | st, v :: rest =>
      match ptTranslate ppt v, ptTranslate cpt v with
      | some se, some de =>
          copyVpns ppt cpt
            ⟨st.alloc, fun p => if p = de.ppn then st.mem se.ppn else st.mem p⟩ rest
      | _, _ => none

/-- The `for area in user_space.areas` loop of `from_existed_user`: push a
copied (empty) area — which maps fresh frames over its whole range — then
byte-copy each of its pages from the parent. -/
def forkAreas (ppt : PageTable) :
    List MArea → PageTable → SysSt → Option (PageTable × SysSt)
  | [], cpt, st => some (cpt, st)
  | a :: rest, cpt, st =>
      match mapAreaVpns a.mapType a.perm cpt st a.range with
      | none => none
      | some (cpt1, st1) =>
          match copyVpns ppt cpt1 st1 a.range with
          | none => none
          | some st2 => forkAreas ppt rest cpt1 st2

/-- `MemorySet::from_existed_user`: a bare child space with the trampoline
remapped, then per parent area allocate matching frames and byte-copy each
page. The child's area descriptors equal the parent's (`from_another`). -/
def from_existed_user (parent : MSet) (st : SysSt) : Option (MSet × SysSt) :=
  match forkAreas parent.pt parent.areas newBareTrampoline st with
  | none => none
  | some (cpt, st') => some (⟨cpt, parent.areas⟩, st')

/-- Frames the allocator may still hand out. -/
def availF (a : StackFrameAllocator) (p : Nat) : Prop :=
  p ∈ a.recycled ∨ a.current ≤ p

/-- Decidable check that every frame backing a parent area is owned
(unavailable to the allocator): below `current` and not recycled. -/
def parentFramesOwned (parent : MSet) (a : StackFrameAllocator) : Bool :=
  parent.areas.all (fun ar => ar.range.all (fun v =>
    match ptTranslate parent.pt v with
    | some e => decide (e.ppn ∉ a.recycled) && decide (e.ppn < a.current)
    | none => true))

theorem parentFramesOwned_spec (parent : MSet) (a : StackFrameAllocator)
    (h : parentFramesOwned parent a = true) :
    ∀ ar ∈ parent.areas, ∀ v ∈ ar.range, ∀ e,
      ptTranslate parent.pt v = some e → ¬ availF a e.ppn := by
  intro ar har v hv e he
  have h1 := List.all_eq_true.mp h ar har
  have h2 := List.all_eq_true.mp h1 v hv
  rw [he] at h2
  simp only [Bool.and_eq_true, decide_eq_true_eq] at h2
  intro hav
  rcases hav with hr | hc
  · exact h2.1 hr
  · omega

theorem alloc_fresh (a a' : StackFrameAllocator) (ppn : Nat)
    (hwf : AllocWF a) (h : a.alloc = some (ppn, a')) :
    availF a ppn ∧ ¬ availF a' ppn ∧ (∀ q, availF a' q → availF a q) ∧
      AllocWF a' := by
  unfold StackFrameAllocator.alloc at h
  rcases hl : a.recycled.getLast? with _ | p
  · rw [hl] at h
    by_cases he : a.current = a.endp
    · rw [if_pos he] at h
      cases h
    · rw [if_neg he] at h
      cases h
      refine ⟨Or.inr (le_refl _), ?_, ?_, ?_⟩
      · intro hav
        unfold availF at hav
        dsimp only at hav
        rcases hav with hr | hc
        · exact absurd (hwf.2 _ hr) (by omega)
        · omega
      · intro q hq
        unfold availF at hq ⊢
        dsimp only at hq
        rcases hq with hr | hc
        · exact Or.inl hr
        · exact Or.inr (by omega)
      · refine ⟨hwf.1, ?_⟩
        intro r hr
        dsimp only at hr ⊢
        have := hwf.2 r hr
        omega
  · rw [hl] at h
    cases h
    have hmem : ppn ∈ a.recycled := List.mem_of_mem_getLast? (by rw [hl]; rfl)
    have heq : a.recycled.dropLast ++ [ppn] = a.recycled :=
      List.dropLast_append_getLast? ppn (by rw [hl]; rfl)
    have hnd : ppn ∉ a.recycled.dropLast := by
      intro hin
      have hx := heq ▸ hwf.1
      rw [List.nodup_append] at hx
      exact hx.2.2 hin (by simp)
    have hsub : ∀ q, q ∈ a.recycled.dropLast → q ∈ a.recycled := by
      intro q hq
      rw [← heq]
      exact List.mem_append_left _ hq
    refine ⟨Or.inl hmem, ?_, ?_, ?_⟩
    · intro hav
      unfold availF at hav
      dsimp only at hav
      rcases hav with hr | hc
      · exact hnd hr
      · exact absurd (hwf.2 _ hmem) (by omega)
    · intro q hq
      unfold availF at hq ⊢
      dsimp only at hq
      rcases hq with hr | hc
      · exact Or.inl (hsub q hr)
      · exact Or.inr hc
    · refine ⟨?_, ?_⟩
      · dsimp only
        exact hwf.1.sublist (List.dropLast_sublist _)
      · intro r hr
        dsimp only at hr ⊢
        exact hwf.2 r (hsub r hr)

theorem ptMap_some_not_valid (pt : PageTable) (vpn ppn flags : Nat) (pt' : PageTable)
    (h : ptMap pt vpn ppn flags = some pt') : isValidAt pt vpn = false := by
  unfold ptMap at h
  rcases hf : pt.find? (fun e => e.1 == vpn) with _ | e
  · unfold isValidAt ptTranslate
    rw [hf]
    rfl
  · rw [hf] at h
    by_cases hv : e.2.is_valid = true
    · simp only [hv, if_true] at h
      cases h
    · unfold isValidAt ptTranslate
      rw [hf]
      simp only [Option.map_some']
      exact Bool.eq_false_iff.mpr hv

theorem ptMap_entry (pt : PageTable) (vpn ppn flags : Nat) (pt' : PageTable)
    (h : ptMap pt vpn ppn flags = some pt') :
    ptTranslate pt' vpn = some ⟨ppn, flags ||| 1⟩ := by
  unfold ptMap at h
  rcases hf : pt.find? (fun e => e.1 == vpn) with _ | e
  · rw [hf] at h
    cases h
    simp [ptTranslate, List.find?]
  · rw [hf] at h
    by_cases hv : e.2.is_valid = true
    · simp only [hv, if_true] at h
      cases h
    · have hvf : e.2.is_valid = false := Bool.eq_false_iff.mpr hv
      simp only [hvf, Bool.false_eq_true, if_false] at h
      cases h
      unfold ptTranslate
      rw [find?_update_self pt vpn ⟨ppn, flags ||| 1⟩ (by rw [hf]; rfl)]
      rfl

/-- What one successful `MapArea::map` pass over a `Framed` area's vpn list
guarantees: the allocator stays well-formed and only shrinks, memory outside
the initially-available frames is untouched, the table changes only at the
listed vpns, every listed vpn gets a valid entry backed by a frame that was
available on entry and is consumed on exit, those frames are pairwise
distinct, and no listed vpn was valid on entry. -/
theorem mapAreaVpns_spec (perm : Nat) (vpns : List Nat) :
    ∀ (cpt cpt' : PageTable) (st st' : SysSt),
      AllocWF st.alloc →
      mapAreaVpns MapType.Framed perm cpt st vpns = some (cpt', st') →
      AllocWF st'.alloc ∧
      (∀ q, availF st'.alloc q → availF st.alloc q) ∧
      (∀ p, ¬ availF st.alloc p → st'.mem p = st.mem p) ∧
      (∀ v, v ∉ vpns → ptTranslate cpt' v = ptTranslate cpt v) ∧
      (∀ v ∈ vpns, ∃ e, ptTranslate cpt' v = some e ∧ e.is_valid = true ∧
        availF st.alloc e.ppn ∧ ¬ availF st'.alloc e.ppn) ∧
      (∀ v ∈ vpns, ∀ w ∈ vpns, v ≠ w → ∀ e f, ptTranslate cpt' v = some e →
        ptTranslate cpt' w = some f → e.ppn ≠ f.ppn) ∧
      (∀ v, isValidAt cpt v = true → v ∉ vpns) := by
  induction vpns with
  | nil =>
    intro cpt cpt' st st' hwf h
    cases h
    exact ⟨hwf, fun q hq => hq, fun p _ => rfl, fun v _ => rfl,
      by simp, by simp, fun v _ => by simp⟩
  | cons v0 rest ih =>
    intro cpt cpt' st st' hwf h
    unfold mapAreaVpns mapOneArea at h
    rcases hz : frameAllocZero st with _ | pz
    · rw [hz] at h
      cases h
    · rw [hz] at h
      obtain ⟨ppn, stZ⟩ := pz
      dsimp only at h
      rcases hm : ptMap cpt v0 ppn perm with _ | cpt1
      · rw [hm] at h
        cases h
      · rw [hm] at h
        simp only [Option.map_some'] at h
        have hza : st.alloc.alloc = some (ppn, stZ.alloc) ∧
            stZ.mem = fun p => if p = ppn then zeroPage else st.mem p := by
          unfold frameAllocZero at hz
          rcases ha : st.alloc.alloc with _ | pa
          · rw [ha] at hz
            cases hz
          · rw [ha] at hz
            obtain ⟨p1, a1⟩ := pa
            dsimp only at hz
            cases hz
            exact ⟨rfl, rfl⟩
        obtain ⟨hfresh, hnfresh, hsubZ, hwfZ⟩ :=
          alloc_fresh st.alloc stZ.alloc ppn hwf hza.1
        have hnv0 : isValidAt cpt v0 = false :=
          ptMap_some_not_valid cpt v0 ppn perm cpt1 hm
        have hent0 : ptTranslate cpt1 v0 = some ⟨ppn, perm ||| 1⟩ :=
          ptMap_entry cpt v0 ppn perm cpt1 hm
        have hoth0 : ∀ v, v ≠ v0 → ptTranslate cpt1 v = ptTranslate cpt v := by
          obtain ⟨pt2, hm', _, hoth⟩ := ptMap_spec cpt v0 ppn perm hnv0
          rw [hm] at hm'
          cases hm'
          exact hoth
        have hval1 : isValidAt cpt1 v0 = true := by
          unfold isValidAt
          rw [hent0]
          exact valid_after_or_one ppn perm
        obtain ⟨ihwf, ihsub, ihmem, ihoth, ihmap, ihdist, ihval⟩ :=
          ih cpt1 cpt' stZ st' hwfZ h
        have hv0notin : v0 ∉ rest := ihval v0 hval1
        have htr0 : ptTranslate cpt' v0 = some ⟨ppn, perm ||| 1⟩ := by
          rw [ihoth v0 hv0notin, hent0]
        have hmemZ : ∀ p, p ≠ ppn → stZ.mem p = st.mem p := by
          intro p hp
          rw [hza.2]
          simp [hp]
        refine ⟨ihwf, ?_, ?_, ?_, ?_, ?_, ?_⟩
        · intro q hq
          exact hsubZ q (ihsub q hq)
        · intro p hp
          have hpz : ¬ availF stZ.alloc p := fun hq => hp (hsubZ p hq)
          have hne : p ≠ ppn := fun he => hp (he ▸ hfresh)
          rw [ihmem p hpz, hmemZ p hne]
        · intro v hv
          have hv1 : v ≠ v0 := fun he => hv (he ▸ List.mem_cons_self _ _)
          have hv2 : v ∉ rest := fun he => hv (List.mem_cons_of_mem _ he)
          rw [ihoth v hv2, hoth0 v hv1]
        · intro v hv
          rcases List.mem_cons.mp hv with rfl | hv
          · refine ⟨⟨ppn, perm ||| 1⟩, htr0, valid_after_or_one ppn perm, hfresh, ?_⟩
            intro hq
            exact hnfresh (ihsub ppn hq)
          · obtain ⟨e, he, hev, hea, hen⟩ := ihmap v hv
            exact ⟨e, he, hev, hsubZ _ hea, hen⟩
        · intro v hvmem w hwmem hvw e f hev hfw
          rcases List.mem_cons.mp hvmem with rfl | hv
          · rcases List.mem_cons.mp hwmem with rfl | hw
            · exact absurd rfl hvw
            · have he' : e.ppn = ppn := by
                rw [htr0] at hev
                rw [← Option.some.inj hev]
              obtain ⟨f', hf', _, hfa, _⟩ := ihmap w hw
              have hff : f.ppn = f'.ppn := by
                rw [hf'] at hfw
                rw [← Option.some.inj hfw]
              intro hpe
              apply hnfresh
              rw [← he', hpe, hff]
              exact hfa
          · rcases List.mem_cons.mp hwmem with rfl | hw
            · have hf2 : f.ppn = ppn := by
                rw [htr0] at hfw
                rw [← Option.some.inj hfw]
              obtain ⟨e', he', _, hea, _⟩ := ihmap v hv
              have hee : e.ppn = e'.ppn := by
                rw [he'] at hev
                rw [← Option.some.inj hev]
              intro hpe
              apply hnfresh
              rw [← hf2, ← hpe, hee]
              exact hea
            · exact ihdist v hv w hw hvw e f hev hfw
        · intro v hvv hmem
          have hne0 : v ≠ v0 := by
            intro he
            rw [he] at hvv
            exact absurd hvv (by simp [hnv0])
          have hv1 : isValidAt cpt1 v = true := by
            unfold isValidAt at hvv ⊢
            rw [hoth0 v hne0]
            exact hvv
          rcases List.mem_cons.mp hmem with he | hrest
          · exact hne0 he
          · exact ihval v hv1 hrest

/-- What one successful copy pass over an area's vpn list guarantees, given
that every source frame differs from every destination frame and the
destination frames are pairwise distinct: each destination page ends up
holding its source page's (pre-pass) contents, pages outside the destination
frames are untouched, and the allocator is untouched. -/
theorem copyVpns_spec (ppt cpt : PageTable) (vpns : List Nat) :
    ∀ (st st' : SysSt),
      vpns.Nodup →
      copyVpns ppt cpt st vpns = some st' →
      (∀ v ∈ vpns, ∀ w ∈ vpns, ∀ se de, ptTranslate ppt v = some se →
        ptTranslate cpt w = some de → se.ppn ≠ de.ppn) →
      (∀ v ∈ vpns, ∀ w ∈ vpns, v ≠ w → ∀ de df, ptTranslate cpt v = some de →
        ptTranslate cpt w = some df → de.ppn ≠ df.ppn) →
      st'.alloc = st.alloc ∧
      (∀ v ∈ vpns, ∃ se de, ptTranslate ppt v = some se ∧
        ptTranslate cpt v = some de ∧ st'.mem de.ppn = st.mem se.ppn) ∧
      (∀ p, (∀ v ∈ vpns, ∀ de, ptTranslate cpt v = some de → p ≠ de.ppn) →
        st'.mem p = st.mem p) := by
  induction vpns with
  | nil =>
    intro st st' _ h _ _
    cases h
    exact ⟨rfl, by simp, fun p _ => rfl⟩
  | cons v0 rest ih =>
    intro st st' hnodup h hsd hdd
    unfold copyVpns at h
    rcases hs : ptTranslate ppt v0 with _ | se0
    · rw [hs] at h
      dsimp only at h
      cases h
    · rw [hs] at h
      rcases hd : ptTranslate cpt v0 with _ | de0
      · rw [hd] at h
        dsimp only at h
        cases h
      · rw [hd] at h
        dsimp only at h
        have hv0nin : v0 ∉ rest := (List.nodup_cons.mp hnodup).1
        have hmem0 : v0 ∈ v0 :: rest := List.mem_cons_self _ _
        obtain ⟨ihalloc, ihcopy, ihoth⟩ :=
          ih _ st' (List.nodup_cons.mp hnodup).2 h
            (fun v hv w hw se de hse hde =>
              hsd v (List.mem_cons_of_mem _ hv) w (List.mem_cons_of_mem _ hw) se de hse hde)
            (fun v hv w hw hvw de df hde hdf =>
              hdd v (List.mem_cons_of_mem _ hv) w (List.mem_cons_of_mem _ hw) hvw de df hde hdf)
        refine ⟨ihalloc, ?_, ?_⟩
        · intro v hv
          rcases List.mem_cons.mp hv with rfl | hv
          · refine ⟨se0, de0, hs, hd, ?_⟩
            have havoid : ∀ w ∈ rest, ∀ de, ptTranslate cpt w = some de →
                de0.ppn ≠ de.ppn := by
              intro w hw de hde
              exact hdd v hmem0 w (List.mem_cons_of_mem _ hw)
                (fun he => hv0nin (he ▸ hw)) de0 de hd hde
            rw [ihoth de0.ppn (fun w hw de hde => havoid w hw de hde)]
            simp
          · obtain ⟨se, de, hse, hde, hcp⟩ := ihcopy v hv
            refine ⟨se, de, hse, hde, ?_⟩
            rw [hcp]
            have hne : se.ppn ≠ de0.ppn :=
              hsd v (List.mem_cons_of_mem _ hv) v0 hmem0 se de0 hse hd
            simp [hne]
        · intro p hp
          have h0 : p ≠ de0.ppn := hp v0 hmem0 de0 hd
          rw [ihoth p (fun v hv de hde => hp v (List.mem_cons_of_mem _ hv) de hde)]
          simp [h0]

/-- The cumulative guarantee of the area loop of `from_existed_user`: under a
well-formed allocator, all-`Framed` areas, and parent frames unavailable to
the allocator, a successful run keeps the allocator well-formed, touches no
frame that was unavailable on entry, preserves every valid child-table entry,
and gives every area page a fresh valid mapping whose frame holds the parent
page's bytes. -/
theorem forkAreas_spec (ppt : PageTable) (areas : List MArea) :
    ∀ (cpt cpt' : PageTable) (stN st' : SysSt),
      AllocWF stN.alloc →
      (∀ ar ∈ areas, ar.mapType = MapType.Framed) →
      (∀ ar ∈ areas, ∀ v ∈ ar.range, ∀ e, ptTranslate ppt v = some e →
        ¬ availF stN.alloc e.ppn) →
      forkAreas ppt areas cpt stN = some (cpt', st') →
      AllocWF st'.alloc ∧
      (∀ q, availF st'.alloc q → availF stN.alloc q) ∧
      (∀ p, ¬ availF stN.alloc p → st'.mem p = stN.mem p) ∧
      (∀ v, isValidAt cpt v = true → ptTranslate cpt' v = ptTranslate cpt v) ∧
      (∀ ar ∈ areas, ∀ v ∈ ar.range, ∃ se de, ptTranslate ppt v = some se ∧
        ptTranslate cpt' v = some de ∧ st'.mem de.ppn = stN.mem se.ppn ∧
        ¬ availF st'.alloc de.ppn ∧ de.is_valid = true) := by
  induction areas with
  | nil =>
    intro cpt cpt' stN st' hwf _ _ h
    cases h
    exact ⟨hwf, fun q hq => hq, fun p _ => rfl, fun v _ => rfl, by simp⟩
  | cons A rest ih =>
    intro cpt cpt' stN st' hwf hframed hpar h
    have hAF : A.mapType = MapType.Framed := hframed A (List.mem_cons_self _ _)
    unfold forkAreas at h
    rw [hAF] at h
    rcases hm1 : mapAreaVpns MapType.Framed A.perm cpt stN A.range with _ | p1
    · rw [hm1] at h
      cases h
    · rw [hm1] at h
      obtain ⟨cpt1, st1⟩ := p1
      dsimp only at h
      rcases hc1 : copyVpns ppt cpt1 st1 A.range with _ | st2
      · rw [hc1] at h
        cases h
      · rw [hc1] at h
        dsimp only at h
        obtain ⟨mwf, msub, mmem, moth, mmap, mdist, mval⟩ :=
          mapAreaVpns_spec A.perm A.range cpt cpt1 stN st1 hwf hm1
        -- destinations of this area are frames that were available on entry
        have hdst : ∀ w ∈ A.range, ∀ de, ptTranslate cpt1 w = some de →
            availF stN.alloc de.ppn ∧ ¬ availF st1.alloc de.ppn ∧
              de.is_valid = true := by
          intro w hw de hde
          obtain ⟨e, he, hev, hea, hen⟩ := mmap w hw
          rw [he] at hde
          cases Option.some.inj hde
          exact ⟨hea, hen, hev⟩
        have hparA : ∀ v ∈ A.range, ∀ se, ptTranslate ppt v = some se →
            ¬ availF stN.alloc se.ppn :=
          fun v hv se hse => hpar A (List.mem_cons_self _ _) v hv se hse
        obtain ⟨calloc, ccopy, coth⟩ :=
          copyVpns_spec ppt cpt1 A.range st1 st2 (List.nodup_range' _ _) hc1
            (fun v hv w hw se de hse hde =>
              fun hcontra => (hparA v hv se hse) (hcontra ▸ (hdst w hw de hde).1))
            (fun v hv w hw hvw de df hde hdf => mdist v hv w hw hvw de df hde hdf)
        -- the recursive call on the remaining areas
        have hwf2 : AllocWF st2.alloc := by
          rw [calloc]
          exact mwf
        have hpar2 : ∀ ar ∈ rest, ∀ v ∈ ar.range, ∀ e, ptTranslate ppt v = some e →
            ¬ availF st2.alloc e.ppn := by
          intro ar har v hv e he hav
          rw [calloc] at hav
          exact hpar ar (List.mem_cons_of_mem _ har) v hv e he (msub _ hav)
        obtain ⟨fwf, fsub, fmem, foth, fmap⟩ :=
          ih cpt1 cpt' st2 st' hwf2 (fun ar har => hframed ar (List.mem_cons_of_mem _ har))
            hpar2 h
        -- source frames of this area keep their contents through the copy
        have hsrcmem : ∀ p, ¬ availF stN.alloc p → st2.mem p = stN.mem p := by
          intro p hp
          have h1 : st1.mem p = stN.mem p := mmem p hp
          have h2 : st2.mem p = st1.mem p := by
            refine coth p ?_
            intro w hw de hde hpe
            exact hp (hpe ▸ (hdst w hw de hde).1)
          rw [h2, h1]
        refine ⟨fwf, ?_, ?_, ?_, ?_⟩
        · intro q hq
          have h1 := fsub q hq
          rw [calloc] at h1
          exact msub q h1
        · intro p hp
          have h2 : ¬ availF st2.alloc p := by
            rw [calloc]
            intro hav
            exact hp (msub p hav)
          rw [fmem p h2, hsrcmem p hp]
        · intro v hvv
          have hnot : v ∉ A.range := mval v hvv
          have h1 : ptTranslate cpt1 v = ptTranslate cpt v := moth v hnot
          have hvv1 : isValidAt cpt1 v = true := by
            unfold isValidAt at hvv ⊢
            rw [h1]
            exact hvv
          rw [foth v hvv1, h1]
        · intro ar har v hv
          rcases List.mem_cons.mp har with rfl | har
          · obtain ⟨se, de, hse, hde, hcp⟩ := ccopy v hv
            obtain ⟨hdea, hden, hdev⟩ := hdst v hv de hde
            have hvv1 : isValidAt cpt1 v = true := by
              unfold isValidAt
              rw [hde]
              exact hdev
            refine ⟨se, de, hse, ?_, ?_, ?_, hdev⟩
            · rw [foth v hvv1, hde]
            · have h3 : ¬ availF st2.alloc de.ppn := by
                rw [calloc]
                exact hden
              rw [fmem de.ppn h3, hcp, mmem se.ppn (hparA v hv se hse)]
            · intro hav
              have h4 := fsub de.ppn hav
              rw [calloc] at h4
              exact hden h4
          · obtain ⟨se, de, hse, hde, hcp, hden, hdev⟩ := fmap ar har v hv
            refine ⟨se, de, hse, hde, ?_, hden, hdev⟩
            rw [hcp, hsrcmem se.ppn (hpar ar (List.mem_cons_of_mem _ har) v hv se hse)]

/-- **C2.** Immediately after fork, the child's user memory byte-equals the
parent's: for every virtual page in every region of the parent's address
space, `from_existed_user` gives the child a mapping at the same vpn whose
frame holds exactly the bytes of the parent's frame — under a well-formed
allocator whose available frames are disjoint from the parent's frames (the
allocator owns what it has not handed out), with all regions `Framed` as
`from_elf` builds them. The child's region descriptors equal the parent's. -/
theorem fork_child_memory_equals_parent (parent : MSet) (st : SysSt)
    (child : MSet) (st' : SysSt)
    (hwf : AllocWF st.alloc)
    (hframed : ∀ ar ∈ parent.areas, ar.mapType = MapType.Framed)
    (hpar : parentFramesOwned parent st.alloc = true)
    (hfork : from_existed_user parent st = some (child, st')) :
    child.areas = parent.areas ∧
    ∀ ar ∈ parent.areas, ∀ v ∈ ar.range,
      ∃ se de, ptTranslate parent.pt v = some se ∧
        ptTranslate child.pt v = some de ∧
        st'.mem de.ppn = st.mem se.ppn := by
  unfold from_existed_user at hfork
  rcases hf : forkAreas parent.pt parent.areas newBareTrampoline st with _ | p
  · rw [hf] at hfork
    cases hfork
  · rw [hf] at hfork
    obtain ⟨cpt, stF⟩ := p
    dsimp only at hfork
    cases hfork
    obtain ⟨_, _, _, _, fmap⟩ :=
      forkAreas_spec parent.pt parent.areas newBareTrampoline cpt st st' hwf hframed
        (parentFramesOwned_spec parent st.alloc hpar) hf
    refine ⟨rfl, ?_⟩
    intro ar har v hv
    obtain ⟨se, de, hse, hde, hcp, _, _⟩ := fmap ar har v hv
    exact ⟨se, de, hse, hde, hcp⟩

/-- Witness for C2: a one-page parent space backed by frame 50, forked with a
boot allocator starting at frame 100; the child maps the page at fresh frame
100 and its contents equal the parent's. -/
theorem fork_child_memory_equals_parent_witness :
    (AllocWF (SysSt.mk ⟨100, 200, []⟩ (fun p _ => p)).alloc ∧
      (∀ ar ∈ (MSet.mk [(0, ⟨50, 23⟩)] [MArea.mk 0 1 MapType.Framed 22]).areas,
        ar.mapType = MapType.Framed) ∧
      parentFramesOwned (MSet.mk [(0, ⟨50, 23⟩)] [MArea.mk 0 1 MapType.Framed 22])
        (SysSt.mk ⟨100, 200, []⟩ (fun p _ => p)).alloc = true) ∧
    ((MSet.mk [(0, (⟨100, 23⟩ : PTEntry)), (2 ^ 27 - 1, ⟨0, 11⟩)]
        [MArea.mk 0 1 MapType.Framed 22]).areas =
      (MSet.mk [(0, ⟨50, 23⟩)] [MArea.mk 0 1 MapType.Framed 22]).areas ∧
    ∀ ar ∈ (MSet.mk [(0, (⟨50, 23⟩ : PTEntry))] [MArea.mk 0 1 MapType.Framed 22]).areas,
      ∀ v ∈ ar.range,
      ∃ se de,
        ptTranslate (MSet.mk [(0, ⟨50, 23⟩)] [MArea.mk 0 1 MapType.Framed 22]).pt v =
          some se ∧
        ptTranslate (MSet.mk [(0, (⟨100, 23⟩ : PTEntry)), (2 ^ 27 - 1, ⟨0, 11⟩)]
          [MArea.mk 0 1 MapType.Framed 22]).pt v = some de ∧
        (SysSt.mk ⟨101, 200, []⟩
          (fun p => if p = 100 then
              (if (50 : Nat) = 100 then zeroPage else (fun q _ => q) 50)
            else (if p = 100 then zeroPage else (fun q _ => q) p))).mem de.ppn =
          (SysSt.mk ⟨100, 200, []⟩ (fun p _ => p)).mem se.ppn) :=
  ⟨⟨⟨by decide, by decide⟩, by decide, by decide⟩,
    fork_child_memory_equals_parent
      (MSet.mk [(0, ⟨50, 23⟩)] [MArea.mk 0 1 MapType.Framed 22])
      (SysSt.mk ⟨100, 200, []⟩ (fun p _ => p))
      (MSet.mk [(0, ⟨100, 23⟩), (2 ^ 27 - 1, ⟨0, 11⟩)] [MArea.mk 0 1 MapType.Framed 22])
      (SysSt.mk ⟨101, 200, []⟩
        (fun p => if p = 100 then
            (if (50 : Nat) = 100 then zeroPage else (fun q _ => q) 50)
          else (if p = 100 then zeroPage else (fun q _ => q) p)))
      ⟨by decide, by decide⟩ (by decide) (by decide) rfl⟩

end BitOS